import Mathlib

/-! Paint-html: flood fill and bounded undo history.

A shallow embedding of `script.js`.

* The canvas bitmap is the flat RGBA byte sequence that `getImageData` hands out
  (`Uint8ClampedArray`, four bytes per pixel, row-major), modelled as `List Nat`.
* JavaScript values that occur in pixel and colour arrays are modelled by `Val`:
  `undefined` (a read outside the array), `NaN` (a failed `parseInt`) or an integer.
* The `while (stack.length)` loop of `floodFill` is modelled with a fuel counter;
  running out of fuel is reported as `none` (`Outcome.hang` for a method call).
* The methods of `app` act on `State`: the fields of the `state` object, the canvas and
  the calls recorded on its 2D context. A method ends in an `Outcome`; an exception
  (`getImageData` on a canvas without pixels) keeps the state reached so far.
* The stroke rasterizer of the browser is a parameter (`Rasterizer`); the DOM bookkeeping
  of the tool bar (CSS classes, the colour picker, the size label) is left out.
-/

namespace Paint

/-! ## JavaScript values and typed-array access -/

/-- A JavaScript value as it occurs in the pixel and colour arrays of the script. -/
inductive Val where
  | undef
  | nan
  | num (n : Int)
deriving DecidableEq

/-- Strict equality `===` on `Val`: `undefined === undefined`, numbers compare by value,
`NaN` equals nothing. -/
def Val.strictEq : Val → Val → Bool
  | .undef, .undef => true
  | .num a, .num b => decide (a = b)
  | _, _ => false

/-- A four-element colour array `[r, g, b, a]`. -/
structure Color where
  r : Val
  g : Val
  b : Val
  a : Val
deriving DecidableEq

/-- The read `data[idx]` on a `Uint8ClampedArray`: `undefined` outside the array. -/
def readByte (data : List Nat) (idx : Int) : Val :=
  if idx < 0 then Val.undef
  else match data[idx.toNat]? with
    | some v => Val.num v
    | none => Val.undef

/-- The conversion a `Uint8ClampedArray` applies to a stored value: `NaN` and `undefined`
become 0, integers are clamped to `0..255`. -/
def toUint8Clamp : Val → Nat
  | .num n => if n < 0 then 0 else if 255 < n then 255 else n.toNat
  | _ => 0

/-- The write `data[idx] = v` on a `Uint8ClampedArray`: ignored outside the array. -/
def writeByte (data : List Nat) (idx : Int) (v : Val) : List Nat :=
  if idx < 0 then data else data.set idx.toNat (toUint8Clamp v)

/-! ## Colour and pixel helpers (`script.js` lines 210-220) -/

/-- `getPixel(data, x, y)` with `canvas.width = w`. -/
def getPixel (w : Nat) (data : List Nat) (x y : Int) : Color :=
  let idx := (y * w + x) * 4
  ⟨readByte data idx, readByte data (idx + 1), readByte data (idx + 2), readByte data (idx + 3)⟩

/-- `matches(data, idx, target)`: all four channels strictly equal. -/
def «matches» (data : List Nat) (idx : Int) (target : Color) : Bool :=
  (readByte data idx).strictEq target.r && (readByte data (idx + 1)).strictEq target.g &&
    (readByte data (idx + 2)).strictEq target.b && (readByte data (idx + 3)).strictEq target.a

/-- `colorsMatch(c1, c2)`: the three colour channels strictly equal, alpha ignored. -/
def colorsMatch (c1 c2 : Color) : Bool :=
  c1.r.strictEq c2.r && c1.g.strictEq c2.g && c1.b.strictEq c2.b

/-! ## Flood fill (`script.js` lines 146-175) -/

/-- The four assignments that paint the pixel at flat index `idx`. -/
def paintPixel (data : List Nat) (idx : Int) (fillColor : Color) : List Nat :=
  let data := writeByte data idx fillColor.r
  let data := writeByte data (idx + 1) fillColor.g
  let data := writeByte data (idx + 2) fillColor.b
  writeByte data (idx + 3) (Val.num 255)

/-- The `while (stack.length)` loop. The work stack is a list whose head is the top of the
JavaScript array (the element `pop` removes), so the four neighbours pushed by
`stack.push([x+1,y],[x-1,y],[x,y+1],[x,y-1])` appear in reverse order. One unit of fuel is
spent per evaluation of the loop condition. -/
def floodLoop (w h : Nat) (targetColor fillColor : Color) :
    Nat → List Nat → List (Int × Int) → Option (List Nat)
  | 0, _, _ => none
  | _ + 1, data, [] => some data
  | fuel + 1, data, (x, y) :: stack =>
    let idx := (y * w + x) * 4
    if x < 0 ∨ x ≥ w ∨ y < 0 ∨ y ≥ h then floodLoop w h targetColor fillColor fuel data stack
    else if !«matches» data idx targetColor then
      floodLoop w h targetColor fillColor fuel data stack
    else
      floodLoop w h targetColor fillColor fuel (paintPixel data idx fillColor)
        ((x, y - 1) :: (x, y + 1) :: (x - 1, y) :: (x + 1, y) :: stack)

/-- `floodFill(startX, startY)` on the bitmap `data` of a `w`×`h` canvas, with
`fillColor = hexToRgba(state.color)`. The result is the bitmap of the canvas afterwards
(on the early return nothing is written back, so it is `data` itself); `none` means the
loop did not finish within `fuel` iterations. -/
def floodFill (fuel w h : Nat) (data : List Nat) (fillColor : Color) (startX startY : Int) :
    Option (List Nat) :=
  let targetColor := getPixel w data startX startY
  if colorsMatch targetColor fillColor then some data
  else floodLoop w h targetColor fillColor fuel data [(startX, startY)]

/-! ## Strings and `parseInt` (`script.js` lines 88-91, 221-226) -/

/-- UTF-16 code units of a string, the units JavaScript string operations work on. -/
def utf16 (s : String) : List Nat :=
  s.toList.flatMap fun c =>
    if c.toNat < 65536 then [c.toNat]
    else [55296 + (c.toNat - 65536) / 1024, 56320 + (c.toNat - 65536) % 1024]

/-- `s.slice(a, b)` on code units, for `0 ≤ a ≤ b`. -/
def slice (s : List Nat) (a b : Nat) : List Nat := (s.take b).drop a

/-- White space and line terminators that `parseInt` skips at the start. -/
def isWhiteSpace (u : Nat) : Bool :=
  u = 9 || u = 10 || u = 11 || u = 12 || u = 13 || u = 32 || u = 160 || u = 5760 ||
    (8192 ≤ u && u ≤ 8202) || u = 8232 || u = 8233 || u = 8239 || u = 8287 || u = 12288 ||
    u = 65279

/-- Value of a code unit as a digit: `0-9`, `a-z`, `A-Z`. -/
def digitVal (u : Nat) : Option Nat :=
  if 48 ≤ u ∧ u ≤ 57 then some (u - 48)
  else if 97 ≤ u ∧ u ≤ 122 then some (u - 87)
  else if 65 ≤ u ∧ u ≤ 90 then some (u - 55)
  else none

/-- Whether the code unit is a digit of the given radix. -/
def isRadixDigit (radix : Nat) (u : Nat) : Bool :=
  match digitVal u with
  | some d => decide (d < radix)
  | none => false

/-- `parseInt(s, radix)` for `radix = 16`, and `parseInt(s)` when `radix = 0` stands for a
missing radix: skip white space, read a sign, strip a `0x`/`0X` marker, read the longest run
of digits; `NaN` when there is none. The value is the exact integer (the rounding of
integers beyond `2^53` to a double is not modelled). -/
def parseInt (s : List Nat) (radix : Nat) : Val :=
  let s := s.dropWhile isWhiteSpace
  let neg := s.head? = some 45
  let s := if s.head? = some 45 ∨ s.head? = some 43 then s.tail else s
  let hex := s.take 2 = [48, 120] ∨ s.take 2 = [48, 88]
  let r := if hex then 16 else if radix = 0 then 10 else radix
  let s := if hex then s.drop 2 else s
  let z := s.takeWhile (isRadixDigit r)
  if z = [] then Val.nan
  else
    let n : Int := z.foldl (fun acc u => acc * r + (digitVal u).getD 0) 0
    Val.num (if neg then -n else n)

/-- `hexToRgba(hex)`. -/
def hexToRgba (hex : String) : Color :=
  let r := parseInt (slice (utf16 hex) 1 3) 16
  let g := parseInt (slice (utf16 hex) 3 5) 16
  let b := parseInt (slice (utf16 hex) 5 7) 16
  ⟨r, g, b, Val.num 255⟩

/-! ## Canvas, image data and the session (`script.js` lines 1-143) -/

/-- The `CONFIG` object. -/
structure Config where
  colors : List String
  maxHistory : Nat

/-- The `CONFIG` of the script. -/
def CONFIG : Config where
  colors := ["#11111b", "#f38ba8", "#fab387", "#f9e2af", "#a6e3a1", "#94e2d5", "#89b4fa",
    "#cba6f7", "#f5c2e7", "#f2cdcd"]
  maxHistory := 20

/-- An `ImageData` object: dimensions and RGBA bytes. -/
structure ImageData where
  width : Nat
  height : Nat
  data : List Nat
deriving DecidableEq

/-- The canvas element with the bitmap of its 2D context. -/
structure Canvas where
  width : Nat
  height : Nat
  data : List Nat
deriving DecidableEq

/-- The three tools. -/
inductive Tool where
  | brush
  | bucket
  | eraser
deriving DecidableEq

/-- Calls on the 2D context that set up what a later `stroke()` draws. The embedding does
not interpret them; it records them for the rasterizer. -/
inductive CtxCall where
  | beginPath
  | lineWidth (v : Val)
  | lineCap (s : String)
  | lineJoin (s : String)
  | strokeStyle (s : String)
  | fillStyle (s : String)
  | moveTo (x y : ℚ)
  | lineTo (x y : ℚ)
deriving DecidableEq

/-- The stroke rasterizer of the browser, an external collaborator: from the calls recorded
since the context was last reset and the current canvas it yields the bitmap after
`ctx.stroke()`. It never changes the size of the bitmap. -/
structure Rasterizer where
  stroke : List CtxCall → Canvas → List Nat
  stroke_length : ∀ calls c, (stroke calls c).length = c.data.length

/-- The mutable world of the script: the fields of the `state` object, the canvas and the
calls recorded on its context. The history lists the oldest snapshot first. -/
structure State where
  isDrawing : Bool
  tool : Tool
  color : String
  size : Val
  history : List ImageData
  canvas : Canvas
  ctx : List CtxCall
deriving DecidableEq

/-- The `state` object as the script creates it, next to a given canvas. -/
def initial (c : Canvas) : State where
  isDrawing := false
  tool := Tool.brush
  color := "#11111b"
  size := Val.num 5
  history := []
  canvas := c
  ctx := []

/-- How a call of one of the methods of `app` ends. -/
inductive Outcome where
  /-- the method returned; the state afterwards -/
  | ok (s : State)
  /-- an exception left the method; the state at that moment -/
  | threw (s : State)
  /-- the fill loop did not finish within the fuel -/
  | hang
deriving DecidableEq

/-- Continue with `f` after a call that returned. -/
def Outcome.andThen (o : Outcome) (f : State → Outcome) : Outcome :=
  match o with
  | Outcome.ok s => f s
  | Outcome.threw s => Outcome.threw s
  | Outcome.hang => Outcome.hang

/-- `ctx.getImageData(0, 0, canvas.width, canvas.height)`: a copy of the whole bitmap;
`none` stands for the `IndexSizeError` raised when the width or the height is zero. -/
def getImageData (c : Canvas) : Option ImageData :=
  if c.width = 0 ∨ c.height = 0 then none else some ⟨c.width, c.height, c.data⟩

/-- `ctx.putImageData(img, 0, 0)`: every canvas pixel that lies inside the image takes the
bytes of the image pixel at the same coordinate; the rest of the canvas is kept. -/
def putImageData (c : Canvas) (img : ImageData) : Canvas :=
  { c with
    data := (List.range c.data.length).map fun i =>
      let x := (i / 4) % c.width
      let y := (i / 4) / c.width
      if x < img.width ∧ y < img.height then img.data.getD ((y * img.width + x) * 4 + i % 4) 0
      else c.data.getD i 0 }

/-- `saveState()`. -/
def saveState (cfg : Config) (s : State) : Outcome :=
  let s := if s.history.length ≥ cfg.maxHistory then { s with history := s.history.tail } else s
  match getImageData s.canvas with
  | none => Outcome.threw s
  | some img => Outcome.ok { s with history := s.history ++ [img] }

/-- `undo()`. -/
def undo (s : State) : Outcome :=
  if s.history.length = 0 then Outcome.ok s
  else
    match s.history.getLast? with
    | none => Outcome.ok s
    | some lastState =>
      Outcome.ok { s with history := s.history.dropLast, canvas := putImageData s.canvas lastState }

/-- `setTool(toolName)`. -/
def setTool (toolName : Tool) (s : State) : Outcome :=
  Outcome.ok { s with tool := toolName }

/-- `setColor(newColor)`. -/
def setColor (newColor : String) (s : State) : Outcome :=
  let s := { s with color := newColor }
  if s.tool = Tool.eraser then setTool Tool.brush s else Outcome.ok s

/-- `setSize(val)`. -/
def setSize (val : String) (s : State) : Outcome :=
  Outcome.ok { s with size := parseInt (utf16 val) 0 }

/-- `clearCanvas(confirmar)`; `answer` is what `confirm(...)` returns when it is asked. -/
def clearCanvas (cfg : Config) (confirmar answer : Bool) (s : State) : Outcome :=
  if !confirmar || answer then
    (saveState cfg s).andThen fun s =>
      Outcome.ok { s with
        ctx := s.ctx ++ [CtxCall.fillStyle "#ffffff"]
        canvas := { s.canvas with
          data := (List.replicate (s.canvas.width * s.canvas.height) [255, 255, 255, 255]).flatten } }
  else Outcome.ok s

/-- `resizeCanvas()`; `width` and `height` are the dimensions the canvas element takes from
`wrapper.clientWidth - 40` and `wrapper.clientHeight - 40`. Assigning them resets the
bitmap to transparent black and the context to its defaults. -/
def resizeCanvas (cfg : Config) (width height : Nat) (s : State) : Outcome :=
  let s := { s with
    canvas := ⟨width, height, (List.replicate (width * height) [0, 0, 0, 0]).flatten⟩
    ctx := [] }
  (clearCanvas cfg false false s).andThen fun s => Outcome.ok { s with history := [] }

/-- `floodFill(startX, startY)` as a method: the fill of `floodFill` on the image data of the
canvas, written back with `putImageData` unless the early return is taken. -/
def floodFillCanvas (fuel : Nat) (startX startY : Int) (s : State) : Outcome :=
  match getImageData s.canvas with
  | none => Outcome.threw s
  | some imgData =>
    let targetColor := getPixel s.canvas.width imgData.data startX startY
    let fillColor := hexToRgba s.color
    if colorsMatch targetColor fillColor then Outcome.ok s
    else
      match floodLoop s.canvas.width s.canvas.height targetColor fillColor fuel imgData.data
          [(startX, startY)] with
      | none => Outcome.hang
      | some data =>
        Outcome.ok { s with canvas := putImageData s.canvas { imgData with data := data } }

/-- `startDraw(x, y)`. -/
def startDraw (cfg : Config) (R : Rasterizer) (fuel : Nat) (x y : Int) (s : State) : Outcome :=
  if s.tool = Tool.bucket then
    (saveState cfg s).andThen fun s => floodFillCanvas fuel x y s
  else
    (saveState cfg s).andThen fun s =>
      let s := { s with isDrawing := true }
      let calls := s.ctx ++ [CtxCall.beginPath, CtxCall.lineWidth s.size, CtxCall.lineCap "round",
        CtxCall.lineJoin "round",
        CtxCall.strokeStyle (if s.tool = Tool.eraser then "#ffffff" else s.color),
        CtxCall.moveTo x y, CtxCall.lineTo x y]
      Outcome.ok { s with ctx := calls, canvas := { s.canvas with data := R.stroke calls s.canvas } }

/-- `draw(x, y)`. -/
def draw (R : Rasterizer) (x y : ℚ) (s : State) : Outcome :=
  if !s.isDrawing then Outcome.ok s
  else
    let calls := s.ctx ++ [CtxCall.lineTo x y]
    Outcome.ok { s with ctx := calls, canvas := { s.canvas with data := R.stroke calls s.canvas } }

/-- `stopDraw()`. -/
def stopDraw (s : State) : Outcome :=
  if s.isDrawing then Outcome.ok { s with isDrawing := false, ctx := s.ctx ++ [CtxCall.beginPath] }
  else Outcome.ok s

/-- The calls the user interface can make. -/
inductive Op where
  | saveState
  | undo
  | clearCanvas (confirmar answer : Bool)
  | startDraw (x y : Int)
  | draw (x y : ℚ)
  | stopDraw
  | resizeCanvas (width height : Nat)
  | setTool (toolName : Tool)
  | setColor (newColor : String)
  | setSize (val : String)

/-- One call. -/
def step (cfg : Config) (R : Rasterizer) (fuel : Nat) (op : Op) (s : State) : Outcome :=
  match op with
  | Op.saveState => saveState cfg s
  | Op.undo => undo s
  | Op.clearCanvas confirmar answer => clearCanvas cfg confirmar answer s
  | Op.startDraw x y => startDraw cfg R fuel x y s
  | Op.draw x y => draw R x y s
  | Op.stopDraw => stopDraw s
  | Op.resizeCanvas width height => resizeCanvas cfg width height s
  | Op.setTool toolName => setTool toolName s
  | Op.setColor newColor => setColor newColor s
  | Op.setSize val => setSize val s

/-- A sequence of calls, each run to completion before the next. After an exception the
next call finds the state the failed call left; `none` when a fill does not finish. -/
def run (cfg : Config) (R : Rasterizer) (fuel : Nat) : List Op → State → Option State
  | [], s => some s
  | op :: ops, s =>
    match step cfg R fuel op s with
    | Outcome.ok s1 => run cfg R fuel ops s1
    | Outcome.threw s1 => run cfg R fuel ops s1
    | Outcome.hang => none

/-- A rasterizer that draws nothing. -/
def noInk : Rasterizer where
  stroke := fun _ c => c.data
  stroke_length := fun _ _ => rfl

/-- A rasterizer that blackens and clears every byte of the bitmap, whatever the path. -/
def inkAll : Rasterizer where
  stroke := fun _ c => c.data.map fun _ => 0
  stroke_length := fun _ c => List.length_map c.data _

/-- Value of a hexadecimal digit given by its code: `0`-`9` (codes 48-57), `a`-`f` (codes
97-102) or `A`-`F` (codes 65-70); `none` for every other code. -/
def hexDigit (u : Nat) : Option Nat :=
  if 48 ≤ u ∧ u ≤ 57 then some (u - 48)
  else if 97 ≤ u ∧ u ≤ 102 then some (u - 97 + 10)
  else if 65 ≤ u ∧ u ≤ 70 then some (u - 65 + 10)
  else none

/-- Value of a character as a hexadecimal digit, either case. -/
def hexVal (c : Char) : Option Nat := hexDigit c.toNat

/-! ## Specification vocabulary for the session -/

/-- Every state a call can leave behind, by returning or by an exception, satisfies `P`. -/
def Outcome.All (P : State → Prop) : Outcome → Prop
  | Outcome.ok s => P s
  | Outcome.threw s => P s
  | Outcome.hang => True

/-- The bitmap has four bytes for each of the `width * height` pixels. -/
def Canvas.wellSized (c : Canvas) : Prop := c.data.length = c.width * c.height * 4

instance (c : Canvas) : Decidable c.wellSized := by
  unfold Canvas.wellSized; infer_instance

/-- The bitmap is well sized and every snapshot in the history has the geometry of the
canvas. -/
def State.wellSized (s : State) : Prop :=
  s.canvas.wellSized ∧ ∀ img ∈ s.history,
    img.width = s.canvas.width ∧ img.height = s.canvas.height ∧
      img.data.length = img.width * img.height * 4

instance (s : State) : Decidable s.wellSized := by
  unfold State.wellSized; infer_instance

/-- A resize gives the canvas a positive width and height (the pixel buffers of the data
model); every other call qualifies. -/
def Op.positive : Op → Prop
  | Op.resizeCanvas width height => 0 < width ∧ 0 < height
  | _ => True

instance (op : Op) : Decidable op.positive := by
  cases op <;> (simp only [Op.positive]; infer_instance)

/-- The canvas bitmap replaced by `data`: an arbitrary mutation that keeps the dimensions
when `data` has the length of the old bitmap. -/
def State.withData (s : State) (data : List Nat) : State :=
  { s with canvas := { s.canvas with data := data } }

/-- For each bitmap of the list in turn: the canvas takes that bitmap, then `saveState()`
is called. -/
def savesOf (cfg : Config) : List (List Nat) → State → Option State
  | [], s => some s
  | b :: bs, s =>
    match saveState cfg (s.withData b) with
    | Outcome.ok s1 => savesOf cfg bs s1
    | _ => none

/-- The given number of `undo()` calls in a row. -/
def undos : Nat → State → Option State
  | 0, s => some s
  | k + 1, s =>
    match undo s with
    | Outcome.ok s1 => undos k s1
    | _ => none

/-- A configuration with room for two snapshots, for the capacity-2 scenario. -/
def config2 : Config where
  colors := []
  maxHistory := 2

/-- The calls of the capacity-2 scenario on a 1×1 canvas: three bucket fills, each of which
saves a snapshot first (white, then `#11111b`, then `#f38ba8`). -/
def threeFills : List Op :=
  [Op.resizeCanvas 1 1, Op.setTool Tool.bucket, Op.startDraw 0 0, Op.setColor "#f38ba8",
    Op.startDraw 0 0, Op.setColor "#fab387", Op.startDraw 0 0]

/-- The state the calls of `threeFills` lead to when there is room for two snapshots. -/
def afterThreeFills : State where
  isDrawing := false
  tool := Tool.bucket
  color := "#fab387"
  size := Val.num 5
  history := [⟨1, 1, [17, 17, 27, 255]⟩, ⟨1, 1, [243, 139, 168, 255]⟩]
  canvas := ⟨1, 1, [250, 179, 135, 255]⟩
  ctx := [CtxCall.fillStyle "#ffffff"]

/-! ## Specification vocabulary for the fill -/

/-- The coordinate lies on the canvas. -/
def inBounds (w h : Nat) (x y : Int) : Prop := 0 ≤ x ∧ x < w ∧ 0 ≤ y ∧ y < h

instance (w h : Nat) (x y : Int) : Decidable (inBounds w h x y) := by
  unfold inBounds; infer_instance

/-- A fill colour as `hexToRgba` yields it for a well-formed string: integer colour
channels in `0..255`. -/
def Color.wellFormed (c : Color) : Prop :=
  (∃ n : Nat, c.r = Val.num n ∧ n ≤ 255) ∧ (∃ n : Nat, c.g = Val.num n ∧ n ≤ 255) ∧
    (∃ n : Nat, c.b = Val.num n ∧ n ≤ 255)

/-- Horizontal or vertical neighbours. -/
def Adjacent (x y x' y' : Int) : Prop :=
  (x' = x + 1 ∧ y' = y) ∨ (x' = x - 1 ∧ y' = y) ∨ (x' = x ∧ y' = y + 1) ∨ (x' = x ∧ y' = y - 1)

/-- The 4-connected region of the seed `(sx, sy)` in the bitmap `data`: the seed, and every
on-canvas pixel reached from it by horizontal or vertical steps through pixels whose RGBA
equals the RGBA of the seed pixel. -/
inductive Region (w h : Nat) (data : List Nat) (sx sy : Int) : Int → Int → Prop
  | seed : inBounds w h sx sy → Region w h data sx sy sx sy
  | step {x y x' y' : Int} : Region w h data sx sy x y → Adjacent x y x' y' →
      inBounds w h x' y' → getPixel w data x' y' = getPixel w data sx sy →
      Region w h data sx sy x' y'

/-- The bitmap of a canvas in which every pixel has the given four bytes. -/
def uniform (n : Nat) (r g b a : Nat) : List Nat :=
  (List.replicate n [r, g, b, a]).flatten

/-- The 4×4 all-white bitmap of the first scenario. -/
def white4 : List Nat := uniform 16 255 255 255 255

/-- The 4×4 white bitmap with a black pixel at `(2, 2)` of the second scenario. -/
def whiteBlack4 : List Nat := paintPixel white4 40 ⟨Val.num 0, Val.num 0, Val.num 0, Val.num 255⟩

/-- A 3×2 bitmap: black, black, white in row 0 and white, black, black in row 1. The
last pixel of row 0 and the first pixel of row 1 are white and adjacent in the flat array,
but they are not neighbours on the canvas. -/
def rowEnd32 : List Nat :=
  [0, 0, 0, 255, 0, 0, 0, 255, 255, 255, 255, 255,
    255, 255, 255, 255, 0, 0, 0, 255, 0, 0, 0, 255]

def red : Color := ⟨Val.num 255, Val.num 0, Val.num 0, Val.num 255⟩

def blue : Color := ⟨Val.num 0, Val.num 0, Val.num 255, Val.num 255⟩

/-- The four neighbours of a pixel, in the order the script pushes them. -/
def neighbours (x y : Int) : List (Int × Int) :=
  [(x + 1, y), (x - 1, y), (x, y + 1), (x, y - 1)]

/-- Variant of the loop of `floodFill` for the comparison of traversal orders: the same
loop, except that after a pixel is painted the new work list is `sched x y rest`, where
`rest` is the work list without the coordinate just taken from its head. -/
def floodLoopWith (sched : Int → Int → List (Int × Int) → List (Int × Int)) (w h : Nat)
    (targetColor fillColor : Color) : Nat → List Nat → List (Int × Int) → Option (List Nat)
  | 0, _, _ => none
  | _ + 1, data, [] => some data
  | fuel + 1, data, (x, y) :: rest =>
    let idx := (y * w + x) * 4
    if x < 0 ∨ x ≥ w ∨ y < 0 ∨ y ≥ h then floodLoopWith sched w h targetColor fillColor fuel data rest
    else if !«matches» data idx targetColor then
      floodLoopWith sched w h targetColor fillColor fuel data rest
    else
      floodLoopWith sched w h targetColor fillColor fuel (paintPixel data idx fillColor)
        (sched x y rest)

/-- Variant of `floodFill` that runs `floodLoopWith sched`. -/
def floodFillWith (sched : Int → Int → List (Int × Int) → List (Int × Int)) (fuel w h : Nat)
    (data : List Nat) (fillColor : Color) (startX startY : Int) : Option (List Nat) :=
  let targetColor := getPixel w data startX startY
  if colorsMatch targetColor fillColor then some data
  else floodLoopWith sched w h targetColor fillColor fuel data [(startX, startY)]

/-- The work list as the stack of the script: the neighbours go on top, the last pushed
first. -/
def stackSched (x y : Int) (rest : List (Int × Int)) : List (Int × Int) :=
  (neighbours x y).reverse ++ rest

/-- The work list as a first-in-first-out queue (breadth first): the neighbours go to the
back, in the order they are pushed. -/
def queueSched (x y : Int) (rest : List (Int × Int)) : List (Int × Int) :=
  rest ++ neighbours x y

/-- A schedule that only reorders: the new work list holds the four neighbours and the
old entries, in any order. -/
def Reorders (sched : Int → Int → List (Int × Int) → List (Int × Int)) : Prop :=
  ∀ x y rest, (sched x y rest).Perm (neighbours x y ++ rest)

/-- The stack of the script with the neighbours pushed in the opposite order. -/
def stackSchedRev (x y : Int) (rest : List (Int × Int)) : List (Int × Int) :=
  neighbours x y ++ rest

/-! ## Proof vocabulary -/

/-- The four channels read at flat index `idx`. -/
def pixelAt (data : List Nat) (idx : Int) : Color :=
  ⟨readByte data idx, readByte data (idx + 1), readByte data (idx + 2), readByte data (idx + 3)⟩

/-- The colour a painted pixel holds afterwards. -/
def painted (fillColor : Color) : Color :=
  ⟨Val.num (toUint8Clamp fillColor.r), Val.num (toUint8Clamp fillColor.g),
    Val.num (toUint8Clamp fillColor.b), Val.num 255⟩

/-- The row-major number of the pixel at an on-canvas coordinate. -/
def flat (w : Nat) (x y : Int) : Nat := (y * w + x).toNat

/-- Number of pixels of the canvas whose RGBA matches `target`. -/
def matchCount (w h : Nat) (data : List Nat) (target : Color) : Nat :=
  (List.range (w * h)).countP (fun p => «matches» data ((4 * p : Nat) : Int) target)

/-- Invariant of the fill loop, relating the current bitmap `data` and work stack to the
original bitmap `orig`, the seed and the fill colour. -/
structure FillInv (w h : Nat) (orig : List Nat) (sx sy : Int) (c : Color)
    (data : List Nat) (stack : List (Int × Int)) : Prop where
  len : data.length = w * h * 4
  frame : ∀ x y, inBounds w h x y → getPixel w data x y = getPixel w orig x y ∨
    (Region w h orig sx sy x y ∧ getPixel w data x y = painted c)
  stackRegion : ∀ x y, (x, y) ∈ stack → inBounds w h x y →
    getPixel w orig x y = getPixel w orig sx sy → Region w h orig sx sy x y
  seedDone : (sx, sy) ∈ stack ∨ getPixel w data sx sy = painted c
  closed : ∀ x y x' y', Region w h orig sx sy x y → getPixel w data x y = painted c →
    Adjacent x y x' y' → Region w h orig sx sy x' y' →
    getPixel w data x' y' = painted c ∨ (x', y') ∈ stack

/-- Fuel that always suffices on a `w`×`h` canvas: every pixel is painted at most once and
each painting pushes four coordinates. -/
def fillFuel (w h : Nat) : Nat := 4 * (w * h) + 2

/-! ## Byte-level facts -/

theorem getPixel_eq_pixelAt (w : Nat) (data : List Nat) (x y : Int) :
    getPixel w data x y = pixelAt data ((y * w + x) * 4) := rfl

theorem readByte_natCast (data : List Nat) (n : Nat) :
    readByte data (n : Int) = match data[n]? with
      | some v => Val.num v
      | none => Val.undef := by
  simp [readByte]

theorem writeByte_natCast (data : List Nat) (n : Nat) (v : Val) :
    writeByte data (n : Int) v = data.set n (toUint8Clamp v) := by
  simp [writeByte]

theorem readByte_ne_nan (data : List Nat) (idx : Int) : readByte data idx ≠ Val.nan := by
  unfold readByte
  split
  · simp
  · split <;> simp

theorem strictEq_iff_of_ne_nan {a b : Val} (ha : a ≠ Val.nan) :
    a.strictEq b = true ↔ a = b := by
  cases a <;> cases b <;> simp_all [Val.strictEq]

theorem matches_iff (data : List Nat) (idx : Int) (target : Color) :
    «matches» data idx target = true ↔ pixelAt data idx = target := by
  obtain ⟨r, g, b, a⟩ := target
  simp only [«matches», pixelAt, Bool.and_eq_true, strictEq_iff_of_ne_nan (readByte_ne_nan _ _),
    Color.mk.injEq, and_assoc]

theorem writeByte_length (data : List Nat) (idx : Int) (v : Val) :
    (writeByte data idx v).length = data.length := by
  unfold writeByte
  split <;> simp

theorem paintPixel_length (data : List Nat) (idx : Int) (c : Color) :
    (paintPixel data idx c).length = data.length := by
  simp [paintPixel, writeByte_length]

theorem readByte_set (data : List Nat) (m n v : Nat) :
    readByte (data.set m v) (n : Int) =
      if m = n ∧ m < data.length then Val.num v else readByte data (n : Int) := by
  rw [readByte_natCast, readByte_natCast, List.getElem?_set]
  by_cases hmn : m = n
  · subst hmn
    by_cases hlt : m < data.length
    · simp [hlt]
    · simp [hlt, List.getElem?_eq_none (Nat.le_of_not_lt hlt)]
  · simp [hmn]

theorem paintPixel_natCast (data : List Nat) (n : Nat) (c : Color) :
    paintPixel data (n : Int) c =
      (((data.set n (toUint8Clamp c.r)).set (n + 1) (toUint8Clamp c.g)).set (n + 2)
        (toUint8Clamp c.b)).set (n + 3) 255 := by
  have h1 : ((n : Int) + 1) = ((n + 1 : Nat) : Int) := by push_cast; ring
  have h2 : ((n : Int) + 2) = ((n + 2 : Nat) : Int) := by push_cast; ring
  have h3 : ((n : Int) + 3) = ((n + 3 : Nat) : Int) := by push_cast; ring
  simp only [paintPixel, h1, h2, h3, writeByte_natCast]
  rfl

theorem pixelAt_natCast (data : List Nat) (n : Nat) :
    pixelAt data (n : Int) =
      ⟨readByte data (n : Int), readByte data ((n + 1 : Nat) : Int),
        readByte data ((n + 2 : Nat) : Int), readByte data ((n + 3 : Nat) : Int)⟩ := by
  simp [pixelAt]

theorem pixelAt_paint_same (data : List Nat) (k : Nat) (c : Color)
    (hk : 4 * k + 3 < data.length) :
    pixelAt (paintPixel data ((4 * k : Nat) : Int) c) ((4 * k : Nat) : Int) = painted c := by
  rw [paintPixel_natCast, pixelAt_natCast]
  simp only [readByte_set, List.length_set, painted]
  have e1 : ¬ (4 * k + 3 = 4 * k) := by omega
  have e2 : ¬ (4 * k + 2 = 4 * k) := by omega
  have e3 : ¬ (4 * k + 1 = 4 * k) := by omega
  have e4 : ¬ (4 * k + 3 = 4 * k + 1) := by omega
  have e5 : ¬ (4 * k + 2 = 4 * k + 1) := by omega
  have e6 : ¬ (4 * k + 3 = 4 * k + 2) := by omega
  have l0 : 4 * k < data.length := by omega
  have l1 : 4 * k + 1 < data.length := by omega
  have l2 : 4 * k + 2 < data.length := by omega
  simp [e1, e2, e3, e4, e5, e6, l0, l1, l2, hk]

theorem pixelAt_paint_other (data : List Nat) (k j : Nat) (c : Color) (hjk : j ≠ k) :
    pixelAt (paintPixel data ((4 * k : Nat) : Int) c) ((4 * j : Nat) : Int) =
      pixelAt data ((4 * j : Nat) : Int) := by
  rw [paintPixel_natCast, pixelAt_natCast, pixelAt_natCast]
  simp only [readByte_set, List.length_set]
  have e : ∀ a b : Nat, a < 4 → b < 4 → ¬ (4 * k + a = 4 * j + b) := by
    intro a b ha hb; omega
  have e00 := e 0 0 (by omega) (by omega)
  have e01 := e 0 1 (by omega) (by omega)
  have e02 := e 0 2 (by omega) (by omega)
  have e03 := e 0 3 (by omega) (by omega)
  have e10 := e 1 0 (by omega) (by omega)
  have e11 := e 1 1 (by omega) (by omega)
  have e12 := e 1 2 (by omega) (by omega)
  have e13 := e 1 3 (by omega) (by omega)
  have e20 := e 2 0 (by omega) (by omega)
  have e21 := e 2 1 (by omega) (by omega)
  have e22 := e 2 2 (by omega) (by omega)
  have e23 := e 2 3 (by omega) (by omega)
  have e30 := e 3 0 (by omega) (by omega)
  have e31 := e 3 1 (by omega) (by omega)
  have e32 := e 3 2 (by omega) (by omega)
  have e33 := e 3 3 (by omega) (by omega)
  simp only [Nat.add_zero] at e00 e01 e02 e03 e10 e20 e30
  simp [e00, e01, e02, e03, e10, e11, e12, e13, e20, e21, e22, e23, e30, e31, e32, e33]

/-! ## Coordinates and flat pixel numbers -/

theorem flat_spec {w h : Nat} {x y : Int} (hin : inBounds w h x y) :
    (y * w + x) * 4 = ((4 * flat w x y : Nat) : Int) ∧ flat w x y < w * h := by
  obtain ⟨hx0, hxw, hy0, hyh⟩ := hin
  obtain ⟨xn, rfl⟩ := Int.eq_ofNat_of_zero_le hx0
  obtain ⟨yn, rfl⟩ := Int.eq_ofNat_of_zero_le hy0
  have hxw' : xn < w := by exact_mod_cast hxw
  have hyh' : yn < h := by exact_mod_cast hyh
  have hflat : flat w (xn : Int) (yn : Int) = yn * w + xn := by
    unfold flat
    have : ((yn : Int) * (w : Int) + (xn : Int)) = ((yn * w + xn : Nat) : Int) := by push_cast; ring
    rw [this, Int.toNat_ofNat]
  rw [hflat]
  constructor
  · push_cast; ring
  · calc yn * w + xn < yn * w + w := by omega
      _ = (yn + 1) * w := by ring
      _ ≤ h * w := Nat.mul_le_mul_right w hyh'
      _ = w * h := Nat.mul_comm h w

theorem flat_inj {w h : Nat} {x y x' y' : Int} (hin : inBounds w h x y)
    (hin' : inBounds w h x' y') (hf : flat w x y = flat w x' y') : x = x' ∧ y = y' := by
  obtain ⟨hx0, hxw, hy0, hyh⟩ := hin
  obtain ⟨hx0', hxw', hy0', hyh'⟩ := hin'
  obtain ⟨xn, rfl⟩ := Int.eq_ofNat_of_zero_le hx0
  obtain ⟨yn, rfl⟩ := Int.eq_ofNat_of_zero_le hy0
  obtain ⟨xm, rfl⟩ := Int.eq_ofNat_of_zero_le hx0'
  obtain ⟨ym, rfl⟩ := Int.eq_ofNat_of_zero_le hy0'
  have hxn : xn < w := by exact_mod_cast hxw
  have hxm : xm < w := by exact_mod_cast hxw'
  have e1 : flat w (xn : Int) (yn : Int) = xn + yn * w := by
    unfold flat
    have : ((yn : Int) * (w : Int) + (xn : Int)) = ((xn + yn * w : Nat) : Int) := by push_cast; ring
    rw [this, Int.toNat_ofNat]
  have e2 : flat w (xm : Int) (ym : Int) = xm + ym * w := by
    unfold flat
    have : ((ym : Int) * (w : Int) + (xm : Int)) = ((xm + ym * w : Nat) : Int) := by push_cast; ring
    rw [this, Int.toNat_ofNat]
  rw [e1, e2] at hf
  have hwpos : 0 < w := by omega
  have hmod : xn = xm := by
    have := congrArg (· % w) hf
    simpa [Nat.add_mul_mod_self_right, Nat.mod_eq_of_lt hxn, Nat.mod_eq_of_lt hxm] using this
  have hdiv : yn = ym := by
    subst hmod
    have h3 : yn * w = ym * w := by omega
    exact Nat.eq_of_mul_eq_mul_right hwpos h3
  exact ⟨by exact_mod_cast hmod, by exact_mod_cast hdiv⟩

theorem getPixel_paint_same {w h : Nat} {data : List Nat} {x y : Int} (c : Color)
    (hlen : data.length = w * h * 4) (hin : inBounds w h x y) :
    getPixel w (paintPixel data ((y * w + x) * 4) c) x y = painted c := by
  obtain ⟨he, hlt⟩ := flat_spec hin
  rw [getPixel_eq_pixelAt, he]
  exact pixelAt_paint_same data _ c (by omega)

theorem getPixel_paint_other {w h : Nat} {data : List Nat} {x y x' y' : Int} (c : Color)
    (hin : inBounds w h x y) (hin' : inBounds w h x' y') (hne : ¬ (x' = x ∧ y' = y)) :
    getPixel w (paintPixel data ((y * w + x) * 4) c) x' y' = getPixel w data x' y' := by
  obtain ⟨he, _⟩ := flat_spec hin
  obtain ⟨he', _⟩ := flat_spec hin'
  rw [getPixel_eq_pixelAt, getPixel_eq_pixelAt, he, he']
  apply pixelAt_paint_other
  intro hf
  obtain ⟨h1, h2⟩ := flat_inj hin' hin hf
  exact hne ⟨h1, h2⟩

theorem countP_range_update (f g : Nat → Bool) (n p0 : Nat) (hp : p0 < n)
    (hf : f p0 = true) (hg : g p0 = false) (hother : ∀ q, q ≠ p0 → g q = f q) :
    (List.range n).countP g + 1 = (List.range n).countP f := by
  induction n with
  | zero => omega
  | succ n ih =>
    rw [List.range_succ, List.countP_append, List.countP_append]
    by_cases hpn : p0 = n
    · subst hpn
      have hsame : (List.range p0).countP g = (List.range p0).countP f := by
        apply List.countP_congr
        intro q hq
        have hq' : q < p0 := List.mem_range.mp hq
        rw [hother q (by omega)]
      simp [hsame, hf, hg]
    · have := ih (by omega)
      have hlast : g n = f n := hother n (fun h => hpn h.symm)
      simp only [List.countP_singleton, hlast]
      omega

theorem matchCount_paint {w h : Nat} {data : List Nat} {x y : Int} {target : Color} (c : Color)
    (hlen : data.length = w * h * 4) (hin : inBounds w h x y)
    (hm : «matches» data ((y * w + x) * 4) target = true) (hpt : painted c ≠ target) :
    matchCount w h (paintPixel data ((y * w + x) * 4) c) target + 1 =
      matchCount w h data target := by
  obtain ⟨he, hlt⟩ := flat_spec hin
  unfold matchCount
  apply countP_range_update _ _ (w * h) (flat w x y) hlt
  · rw [← he]; exact hm
  · rw [he]
    cases hb : «matches» (paintPixel data ((4 * flat w x y : Nat) : Int) c)
        ((4 * flat w x y : Nat) : Int) target with
    | false => rfl
    | true =>
      rw [matches_iff, pixelAt_paint_same data _ c (by omega)] at hb
      exact absurd hb hpt
  · intro q hq
    rw [he]
    have := pixelAt_paint_other data (flat w x y) q c hq
    cases hb : «matches» data ((4 * q : Nat) : Int) target with
    | true =>
      rw [matches_iff] at hb ⊢
      rw [this]; exact hb
    | false =>
      cases hb2 : «matches» (paintPixel data ((4 * flat w x y : Nat) : Int) c)
          ((4 * q : Nat) : Int) target with
      | false => rfl
      | true =>
        rw [matches_iff, this, ← matches_iff] at hb2
        rw [hb2] at hb; exact absurd hb (by simp)

theorem matchCount_le (w h : Nat) (data : List Nat) (target : Color) :
    matchCount w h data target ≤ w * h := by
  unfold matchCount
  exact (List.countP_le_length _).trans (by simp)

/-! ## The loop invariant -/

theorem Region.inB {w h : Nat} {orig : List Nat} {sx sy x y : Int}
    (hr : Region w h orig sx sy x y) : inBounds w h x y := by
  cases hr with
  | seed hin => exact hin
  | step _ _ hin _ => exact hin

theorem Region.color {w h : Nat} {orig : List Nat} {sx sy x y : Int}
    (hr : Region w h orig sx sy x y) : getPixel w orig x y = getPixel w orig sx sy := by
  cases hr with
  | seed _ => rfl
  | step _ _ _ hc => exact hc

theorem Region.seed_inB {w h : Nat} {orig : List Nat} {sx sy x y : Int}
    (hr : Region w h orig sx sy x y) : inBounds w h sx sy := by
  induction hr with
  | seed hin => exact hin
  | step _ _ _ _ ih => exact ih

theorem not_oob_iff (w h : Nat) (x y : Int) :
    ¬ (x < 0 ∨ x ≥ w ∨ y < 0 ∨ y ≥ h) ↔ inBounds w h x y := by
  unfold inBounds
  constructor
  · intro hn
    refine ⟨?_, ?_, ?_, ?_⟩ <;> by_contra hc <;> apply hn <;> omega
  · rintro ⟨h1, h2, h3, h4⟩ hc
    omega

theorem FillInv.init {w h : Nat} {orig : List Nat} {sx sy : Int} (c : Color)
    (hlen : orig.length = w * h * 4) (hin : inBounds w h sx sy)
    (hpt : painted c ≠ getPixel w orig sx sy) :
    FillInv w h orig sx sy c orig [(sx, sy)] where
  len := hlen
  frame := fun _ _ _ => Or.inl rfl
  stackRegion := by
    intro x y hmem _ _
    simp only [List.mem_singleton, Prod.mk.injEq] at hmem
    obtain ⟨rfl, rfl⟩ := hmem
    exact Region.seed hin
  seedDone := Or.inl (by simp)
  closed := by
    intro x y x' y' hr hp _ _
    exact absurd (hp.symm.trans hr.color) hpt

theorem FillInv.discard_oob {w h : Nat} {orig : List Nat} {sx sy : Int} {c : Color}
    {data : List Nat} {x y : Int} {rest : List (Int × Int)}
    (hinv : FillInv w h orig sx sy c data ((x, y) :: rest)) (hin : inBounds w h sx sy)
    (hout : ¬ inBounds w h x y) : FillInv w h orig sx sy c data rest where
  len := hinv.len
  frame := hinv.frame
  stackRegion := fun a b hmem => hinv.stackRegion a b (List.mem_cons_of_mem _ hmem)
  seedDone := by
    rcases hinv.seedDone with hmem | hp
    · rcases List.mem_cons.mp hmem with heq | hmem
      · simp only [Prod.mk.injEq] at heq
        obtain ⟨rfl, rfl⟩ := heq
        exact absurd hin hout
      · exact Or.inl hmem
    · exact Or.inr hp
  closed := by
    intro a b a' b' hr hp hadj hr'
    rcases hinv.closed a b a' b' hr hp hadj hr' with hp' | hmem
    · exact Or.inl hp'
    · rcases List.mem_cons.mp hmem with heq | hmem
      · simp only [Prod.mk.injEq] at heq
        obtain ⟨rfl, rfl⟩ := heq
        exact absurd hr'.inB hout
      · exact Or.inr hmem

theorem FillInv.discard_nomatch {w h : Nat} {orig : List Nat} {sx sy : Int} {c : Color}
    {data : List Nat} {x y : Int} {rest : List (Int × Int)}
    (hinv : FillInv w h orig sx sy c data ((x, y) :: rest)) (hin : inBounds w h sx sy)
    (hxy : inBounds w h x y)
    (hnm : getPixel w data x y ≠ getPixel w orig sx sy) :
    FillInv w h orig sx sy c data rest where
  len := hinv.len
  frame := hinv.frame
  stackRegion := fun a b hmem => hinv.stackRegion a b (List.mem_cons_of_mem _ hmem)
  seedDone := by
    rcases hinv.seedDone with hmem | hp
    · rcases List.mem_cons.mp hmem with heq | hmem
      · simp only [Prod.mk.injEq] at heq
        obtain ⟨rfl, rfl⟩ := heq
        rcases hinv.frame sx sy hin with he | ⟨_, hp⟩
        · exact absurd he hnm
        · exact Or.inr hp
      · exact Or.inl hmem
    · exact Or.inr hp
  closed := by
    intro a b a' b' hr hp hadj hr'
    rcases hinv.closed a b a' b' hr hp hadj hr' with hp' | hmem
    · exact Or.inl hp'
    · rcases List.mem_cons.mp hmem with heq | hmem
      · simp only [Prod.mk.injEq] at heq
        obtain ⟨rfl, rfl⟩ := heq
        rcases hinv.frame a' b' hxy with he | ⟨_, hp'⟩
        · exact absurd (he.trans hr'.color) hnm
        · exact Or.inl hp'
      · exact Or.inr hmem

theorem mem_neighbours_of_adjacent {x y x' y' : Int} (rest : List (Int × Int))
    (hadj : Adjacent x y x' y') :
    (x', y') ∈ (x, y - 1) :: (x, y + 1) :: (x - 1, y) :: (x + 1, y) :: rest := by
  rcases hadj with ⟨rfl, rfl⟩ | ⟨rfl, rfl⟩ | ⟨rfl, rfl⟩ | ⟨rfl, rfl⟩ <;> simp

theorem adjacent_of_mem_neighbours {x y x' y' : Int} {rest : List (Int × Int)}
    (hmem : (x', y') ∈ (x, y - 1) :: (x, y + 1) :: (x - 1, y) :: (x + 1, y) :: rest) :
    Adjacent x y x' y' ∨ (x', y') ∈ rest := by
  simp only [List.mem_cons, Prod.mk.injEq] at hmem
  unfold Adjacent
  rcases hmem with ⟨rfl, rfl⟩ | ⟨rfl, rfl⟩ | ⟨rfl, rfl⟩ | ⟨rfl, rfl⟩ | hmem
  · exact Or.inl (Or.inr (Or.inr (Or.inr ⟨rfl, rfl⟩)))
  · exact Or.inl (Or.inr (Or.inr (Or.inl ⟨rfl, rfl⟩)))
  · exact Or.inl (Or.inr (Or.inl ⟨rfl, rfl⟩))
  · exact Or.inl (Or.inl ⟨rfl, rfl⟩)
  · exact Or.inr hmem

theorem FillInv.paint {w h : Nat} {orig : List Nat} {sx sy : Int} {c : Color}
    {data : List Nat} {x y : Int} {rest : List (Int × Int)}
    (hinv : FillInv w h orig sx sy c data ((x, y) :: rest))
    (hpt : painted c ≠ getPixel w orig sx sy) (hxy : inBounds w h x y)
    (hm : getPixel w data x y = getPixel w orig sx sy) :
    FillInv w h orig sx sy c (paintPixel data ((y * w + x) * 4) c)
      ((x, y - 1) :: (x, y + 1) :: (x - 1, y) :: (x + 1, y) :: rest) := by
  have horig : getPixel w orig x y = getPixel w orig sx sy := by
    rcases hinv.frame x y hxy with he | ⟨_, hp⟩
    · exact he.symm.trans hm
    · exact absurd (hp.symm.trans hm) hpt
  have hreg : Region w h orig sx sy x y :=
    hinv.stackRegion x y (List.mem_cons_self _ _) hxy horig
  have hsame : getPixel w (paintPixel data ((y * w + x) * 4) c) x y = painted c :=
    getPixel_paint_same c hinv.len hxy
  refine ⟨?_, ?_, ?_, ?_, ?_⟩
  · rw [paintPixel_length]; exact hinv.len
  · intro a b hab
    by_cases heq : a = x ∧ b = y
    · obtain ⟨rfl, rfl⟩ := heq
      exact Or.inr ⟨hreg, hsame⟩
    · rw [getPixel_paint_other c hxy hab heq]
      exact hinv.frame a b hab
  · intro a b hmem hab hcol
    rcases adjacent_of_mem_neighbours hmem with hadj | hmem
    · exact Region.step hreg hadj hab hcol
    · exact hinv.stackRegion a b (List.mem_cons_of_mem _ hmem) hab hcol
  · by_cases heq : sx = x ∧ sy = y
    · obtain ⟨rfl, rfl⟩ := heq
      exact Or.inr hsame
    · rcases hinv.seedDone with hmem | hp
      · rcases List.mem_cons.mp hmem with he | hmem
        · simp only [Prod.mk.injEq] at he
          exact absurd he heq
        · refine Or.inl ?_
          simp only [List.mem_cons]
          exact Or.inr (Or.inr (Or.inr (Or.inr hmem)))
      · by_cases hsin : inBounds w h sx sy
        · rw [getPixel_paint_other c hxy hsin heq]
          exact Or.inr hp
        · exact absurd hreg.seed_inB hsin
  · intro a b a' b' hr hp hadj hr'
    by_cases heq' : a' = x ∧ b' = y
    · obtain ⟨rfl, rfl⟩ := heq'
      exact Or.inl hsame
    · rw [getPixel_paint_other c hxy hr'.inB heq']
      by_cases heq : a = x ∧ b = y
      · obtain ⟨rfl, rfl⟩ := heq
        exact Or.inr (mem_neighbours_of_adjacent rest hadj)
      · rw [getPixel_paint_other c hxy hr.inB heq] at hp
        rcases hinv.closed a b a' b' hr hp hadj hr' with hp' | hmem
        · exact Or.inl hp'
        · rcases List.mem_cons.mp hmem with he | hmem
          · simp only [Prod.mk.injEq] at he
            exact absurd he heq'
          · refine Or.inr ?_
            simp only [List.mem_cons]
            exact Or.inr (Or.inr (Or.inr (Or.inr hmem)))

/-! ## Running the loop -/

theorem floodLoop_mono (w h : Nat) (target c : Color) :
    ∀ (fuel : Nat) (data : List Nat) (stack : List (Int × Int)) (out : List Nat),
      floodLoop w h target c fuel data stack = some out →
      ∀ k, floodLoop w h target c (fuel + k) data stack = some out := by
  intro fuel
  induction fuel with
  | zero => intro data stack out hrun; simp [floodLoop] at hrun
  | succ fuel ih =>
    intro data stack out hrun k
    rw [Nat.add_right_comm]
    cases stack with
    | nil => simpa [floodLoop] using hrun
    | cons top rest =>
      obtain ⟨x, y⟩ := top
      simp only [floodLoop] at hrun ⊢
      split at hrun
      · rename_i hc
        rw [if_pos hc]
        exact ih _ _ _ hrun k
      · rename_i hc
        rw [if_neg hc]
        split at hrun
        · rename_i hm
          rw [if_pos hm]
          exact ih _ _ _ hrun k
        · rename_i hm
          rw [if_neg hm]
          exact ih _ _ _ hrun k

theorem floodLoop_spec {w h : Nat} {orig : List Nat} {sx sy : Int} {c : Color}
    (hin : inBounds w h sx sy) (hpt : painted c ≠ getPixel w orig sx sy) :
    ∀ (fuel : Nat) (data : List Nat) (stack : List (Int × Int)),
      FillInv w h orig sx sy c data stack →
      4 * matchCount w h data (getPixel w orig sx sy) + stack.length < fuel →
      ∃ out, floodLoop w h (getPixel w orig sx sy) c fuel data stack = some out ∧
        FillInv w h orig sx sy c out [] := by
  intro fuel
  induction fuel with
  | zero => intro data stack _ hlt; omega
  | succ fuel ih =>
    intro data stack hinv hlt
    cases stack with
    | nil => exact ⟨data, by simp [floodLoop], hinv⟩
    | cons top rest =>
      obtain ⟨x, y⟩ := top
      simp only [floodLoop]
      simp only [List.length_cons] at hlt
      by_cases hc : x < 0 ∨ x ≥ w ∨ y < 0 ∨ y ≥ h
      · rw [if_pos hc]
        have hout : ¬ inBounds w h x y := fun hb => (not_oob_iff w h x y).mpr hb hc
        exact ih data rest (hinv.discard_oob hin hout) (by omega)
      · rw [if_neg hc]
        have hxy : inBounds w h x y := (not_oob_iff w h x y).mp hc
        cases hm : «matches» data ((y * w + x) * 4) (getPixel w orig sx sy) with
        | false =>
          simp only [Bool.not_false, if_true]
          have hnm : getPixel w data x y ≠ getPixel w orig sx sy := by
            intro he
            rw [getPixel_eq_pixelAt, ← matches_iff, hm] at he
            exact absurd he (by simp)
          exact ih data rest (hinv.discard_nomatch hin hxy hnm) (by omega)
        | true =>
          simp only [Bool.not_true, Bool.false_eq_true, if_false]
          have he : getPixel w data x y = getPixel w orig sx sy := by
            rw [getPixel_eq_pixelAt, ← matches_iff]; exact hm
          have hcnt := matchCount_paint c hinv.len hxy hm hpt
          refine ih _ _ (hinv.paint hpt hxy he) ?_
          simp only [List.length_cons]
          omega

theorem FillInv.region_painted {w h : Nat} {orig : List Nat} {sx sy : Int} {c : Color}
    {out : List Nat} (hinv : FillInv w h orig sx sy c out []) {x y : Int}
    (hr : Region w h orig sx sy x y) : getPixel w out x y = painted c := by
  induction hr with
  | seed _ =>
    rcases hinv.seedDone with hmem | hp
    · exact absurd hmem (by simp)
    · exact hp
  | step hprev hadj hb hcol ih =>
    rcases hinv.closed _ _ _ _ hprev ih hadj (Region.step hprev hadj hb hcol) with hp | hmem
    · exact hp
    · exact absurd hmem (by simp)

theorem painted_of_wellFormed {c : Color} (hwf : c.wellFormed) :
    painted c = ⟨c.r, c.g, c.b, Val.num 255⟩ := by
  obtain ⟨⟨r, hr, hr'⟩, ⟨g, hg, hg'⟩, ⟨b, hb, hb'⟩⟩ := hwf
  simp only [painted, hr, hg, hb, toUint8Clamp, Color.mk.injEq, Val.num.injEq, and_true]
  refine ⟨?_, ?_, ?_⟩ <;> split_ifs <;> omega

theorem painted_ne_target {c target : Color} (hwf : c.wellFormed)
    (hne : colorsMatch target c = false) : painted c ≠ target := by
  rw [painted_of_wellFormed hwf]
  intro he
  obtain ⟨⟨r, hr, _⟩, ⟨g, hg, _⟩, ⟨b, hb, _⟩⟩ := hwf
  subst he
  simp [colorsMatch, Val.strictEq, hr, hg, hb] at hne

theorem floodFill_run {w h : Nat} {data : List Nat} {c : Color} {sx sy : Int}
    (hlen : data.length = w * h * 4) (hin : inBounds w h sx sy) (hwf : c.wellFormed)
    (hne : colorsMatch (getPixel w data sx sy) c = false) (fuel : Nat)
    (hfuel : fillFuel w h ≤ fuel) :
    ∃ out, floodFill fuel w h data c sx sy = some out ∧ FillInv w h data sx sy c out [] := by
  have hpt := painted_ne_target hwf hne
  have hcnt := matchCount_le w h data (getPixel w data sx sy)
  unfold floodFill
  simp only [hne, Bool.false_eq_true, if_false]
  apply floodLoop_spec hin hpt fuel data _ (FillInv.init c hlen hin hpt)
  unfold fillFuel at hfuel
  simp only [List.length_singleton]
  omega

theorem colorsMatch_getPixel_iff (w : Nat) (data : List Nat) (x y : Int) (c : Color) :
    colorsMatch (getPixel w data x y) c = true ↔
      (getPixel w data x y).r = c.r ∧ (getPixel w data x y).g = c.g ∧
        (getPixel w data x y).b = c.b := by
  simp only [colorsMatch, getPixel, Bool.and_eq_true,
    strictEq_iff_of_ne_nan (readByte_ne_nan _ _), and_assoc]

theorem floodFill_oob {w h : Nat} (data : List Nat) (c : Color) {sx sy : Int}
    (hout : ¬ inBounds w h sx sy) (fuel : Nat) (hfuel : 2 ≤ fuel) :
    floodFill fuel w h data c sx sy = some data := by
  obtain ⟨k, rfl⟩ : ∃ k, fuel = k + 2 := ⟨fuel - 2, by omega⟩
  have hc : sx < 0 ∨ sx ≥ w ∨ sy < 0 ∨ sy ≥ h := by
    by_contra hn
    exact hout ((not_oob_iff w h sx sy).mp hn)
  simp only [floodFill]
  split
  · rfl
  · simp [floodLoop, hc]

/-! ## Flood-fill claims -/

/-- C1: on a `w`×`h` bitmap, for an on-canvas seed and a well-formed fill colour whose RGB
differs from the RGB of the seed pixel, `floodFill` finishes and every pixel of the
4-connected region of the seed holds `(fillR, fillG, fillB, 255)` afterwards. -/
theorem floodFill_fills_region (w h : Nat) (data : List Nat) (fillColor : Color)
    (startX startY : Int) (fuel : Nat) (hlen : data.length = w * h * 4)
    (hseed : inBounds w h startX startY) (hwf : fillColor.wellFormed)
    (hdiff : ¬ ((getPixel w data startX startY).r = fillColor.r ∧
      (getPixel w data startX startY).g = fillColor.g ∧
      (getPixel w data startX startY).b = fillColor.b))
    (hfuel : fillFuel w h ≤ fuel) :
    ∃ out, floodFill fuel w h data fillColor startX startY = some out ∧
      ∀ x y, Region w h data startX startY x y →
        getPixel w out x y = ⟨fillColor.r, fillColor.g, fillColor.b, Val.num 255⟩ := by
  have hne : colorsMatch (getPixel w data startX startY) fillColor = false := by
    cases hb : colorsMatch (getPixel w data startX startY) fillColor with
    | false => rfl
    | true => exact absurd ((colorsMatch_getPixel_iff w data startX startY fillColor).mp hb) hdiff
  obtain ⟨out, hrun, hinv⟩ := floodFill_run hlen hseed hwf hne fuel hfuel
  refine ⟨out, hrun, fun x y hr => ?_⟩
  rw [hinv.region_painted hr, painted_of_wellFormed hwf]

set_option maxRecDepth 100000 in
/-- Scenario for C1: the 4×4 all-white bitmap filled from `(0, 0)` with red becomes all
`(255, 0, 0, 255)`. -/
theorem floodFill_fills_region_witness :
    floodFill 66 4 4 white4 red 0 0 = some (uniform 16 255 0 0 255) ∧
    ∃ out, floodFill 66 4 4 white4 red 0 0 = some out ∧
      ∀ x y, Region 4 4 white4 0 0 x y →
        getPixel 4 out x y = ⟨Val.num 255, Val.num 0, Val.num 0, Val.num 255⟩ :=
  ⟨by decide,
    floodFill_fills_region 4 4 white4 red 0 0 66 (by decide) (by decide)
      ⟨⟨255, rfl, by decide⟩, ⟨0, rfl, by decide⟩, ⟨0, rfl, by decide⟩⟩ (by decide) (by decide)⟩

/-- C2: for an on-canvas seed and a well-formed fill colour, `floodFill` finishes, keeps the
size of the bitmap, and every on-canvas pixel outside the 4-connected region of the seed
keeps its original RGBA. -/
theorem floodFill_frame (w h : Nat) (data : List Nat) (fillColor : Color)
    (startX startY : Int) (fuel : Nat) (hlen : data.length = w * h * 4)
    (hseed : inBounds w h startX startY) (hwf : fillColor.wellFormed)
    (hfuel : fillFuel w h ≤ fuel) :
    ∃ out, floodFill fuel w h data fillColor startX startY = some out ∧
      out.length = data.length ∧
      ∀ x y, inBounds w h x y → ¬ Region w h data startX startY x y →
        getPixel w out x y = getPixel w data x y := by
  cases hb : colorsMatch (getPixel w data startX startY) fillColor with
  | true =>
    refine ⟨data, ?_, rfl, fun _ _ _ _ => rfl⟩
    simp [floodFill, hb]
  | false =>
    obtain ⟨out, hrun, hinv⟩ := floodFill_run hlen hseed hwf hb fuel hfuel
    refine ⟨out, hrun, hinv.len.trans hlen.symm, fun x y hxy hnr => ?_⟩
    rcases hinv.frame x y hxy with he | ⟨hr, _⟩
    · exact he
    · exact absurd hr hnr

set_option maxRecDepth 100000 in
/-- Scenarios for C2: the 4×4 white bitmap with a black pixel at `(2, 2)`, filled from
`(0, 0)` with blue, has its 15 white pixels blue and `(2, 2)` still black; and on the 3×2
bitmap `rowEnd32` a fill from the last pixel of row 0 does not reach the first pixel of
row 1, although both are white and adjacent in the flat array. -/
theorem floodFill_frame_witness :
    floodFill 66 4 4 whiteBlack4 blue 0 0 =
      some (paintPixel (uniform 16 0 0 255 255) 40
        ⟨Val.num 0, Val.num 0, Val.num 0, Val.num 255⟩) ∧
    floodFill 26 3 2 rowEnd32 blue 2 0 =
      some [0, 0, 0, 255, 0, 0, 0, 255, 0, 0, 255, 255,
        255, 255, 255, 255, 0, 0, 0, 255, 0, 0, 0, 255] ∧
    ∃ out, floodFill 66 4 4 whiteBlack4 blue 0 0 = some out ∧
      out.length = whiteBlack4.length ∧
      ∀ x y, inBounds 4 4 x y → ¬ Region 4 4 whiteBlack4 0 0 x y →
        getPixel 4 out x y = getPixel 4 whiteBlack4 x y :=
  ⟨by decide, by decide,
    floodFill_frame 4 4 whiteBlack4 blue 0 0 66 (by decide) (by decide)
      ⟨⟨0, rfl, by decide⟩, ⟨0, rfl, by decide⟩, ⟨255, rfl, by decide⟩⟩ (by decide)⟩

/-- C3: if the RGB of the seed pixel equals the RGB of the fill colour, whatever the alpha
of the seed pixel, `floodFill` returns at once (no loop iteration is needed) and the bitmap
is unchanged in every byte. -/
theorem floodFill_same_rgb_noop (w h : Nat) (data : List Nat) (fillColor : Color)
    (startX startY : Int) (fuel : Nat)
    (hsame : (getPixel w data startX startY).r = fillColor.r ∧
      (getPixel w data startX startY).g = fillColor.g ∧
      (getPixel w data startX startY).b = fillColor.b) :
    floodFill fuel w h data fillColor startX startY = some data := by
  have hb := (colorsMatch_getPixel_iff w data startX startY fillColor).mpr hsame
  simp [floodFill, hb]

/-- Instance of C3 on a 2×1 bitmap whose seed pixel has alpha 7: filling with the same RGB
changes nothing, with no fuel at all. -/
theorem floodFill_same_rgb_noop_witness :
    ((getPixel 2 [10, 20, 30, 7, 10, 20, 30, 7] 0 0).r = Val.num 10 ∧
      (getPixel 2 [10, 20, 30, 7, 10, 20, 30, 7] 0 0).g = Val.num 20 ∧
      (getPixel 2 [10, 20, 30, 7, 10, 20, 30, 7] 0 0).b = Val.num 30) ∧
    floodFill 0 2 1 [10, 20, 30, 7, 10, 20, 30, 7]
      ⟨Val.num 10, Val.num 20, Val.num 30, Val.num 255⟩ 0 0 =
      some [10, 20, 30, 7, 10, 20, 30, 7] :=
  ⟨by decide,
    floodFill_same_rgb_noop 2 1 [10, 20, 30, 7, 10, 20, 30, 7]
      ⟨Val.num 10, Val.num 20, Val.num 30, Val.num 255⟩ 0 0 0 (by decide)⟩

/-- C4: for an integer seed off the canvas and any fill colour, `floodFill` finishes (two
evaluations of the loop condition suffice) and leaves the bitmap unchanged in every byte,
wherever the flat index of the seed falls. -/
theorem floodFill_out_of_range_noop (w h : Nat) (data : List Nat) (fillColor : Color)
    (startX startY : Int) (fuel : Nat)
    (hout : startX < 0 ∨ startX ≥ w ∨ startY < 0 ∨ startY ≥ h) (hfuel : 2 ≤ fuel) :
    floodFill fuel w h data fillColor startX startY = some data :=
  floodFill_oob data fillColor (fun hb => (not_oob_iff w h startX startY).mpr hb hout) fuel hfuel

/-- Instance of C4: on the 4×4 bitmap with a black pixel at `(2, 2)` the seed `(-6, 4)` has
flat index 40, so `getPixel` reads the black pixel as the target colour; a fill with blue
still changes nothing. -/
theorem floodFill_out_of_range_noop_witness :
    getPixel 4 whiteBlack4 (-6) 4 = ⟨Val.num 0, Val.num 0, Val.num 0, Val.num 255⟩ ∧
    floodFill 2 4 4 whiteBlack4 blue (-6) 4 = some whiteBlack4 :=
  ⟨by decide, floodFill_out_of_range_noop 4 4 whiteBlack4 blue (-6) 4 2 (by decide) (by decide)⟩

/-- C5: for every `w`×`h` bitmap, every integer seed and every well-formed fill colour the
loop of `floodFill` terminates: `4 * w * h + 2` evaluations of the loop condition always
suffice, more fuel does not change the result, and once the RGB early exit has not been
taken a painted pixel differs from the target colour. -/
theorem floodFill_terminates (w h : Nat) (data : List Nat) (fillColor : Color)
    (startX startY : Int) (hlen : data.length = w * h * 4) (hwf : fillColor.wellFormed) :
    (∃ out, ∀ fuel, 4 * w * h + 2 ≤ fuel →
      floodFill fuel w h data fillColor startX startY = some out) ∧
    (colorsMatch (getPixel w data startX startY) fillColor = false →
      painted fillColor ≠ getPixel w data startX startY) := by
  refine ⟨?_, fun hne => painted_ne_target hwf hne⟩
  by_cases hin : inBounds w h startX startY
  · cases hb : colorsMatch (getPixel w data startX startY) fillColor with
    | true =>
      refine ⟨data, fun fuel _ => ?_⟩
      simp [floodFill, hb]
    | false =>
      obtain ⟨out, hrun, _⟩ := floodFill_run hlen hin hwf hb (fillFuel w h) le_rfl
      refine ⟨out, fun fuel hfuel => ?_⟩
      have hk : fuel = fillFuel w h + (fuel - fillFuel w h) := by
        unfold fillFuel; rw [← Nat.mul_assoc]; omega
      simp only [floodFill, hb, Bool.false_eq_true, if_false] at hrun ⊢
      rw [hk]
      exact floodLoop_mono w h _ _ _ _ _ _ hrun _
  · refine ⟨data, fun fuel hfuel => floodFill_oob data fillColor hin fuel (by omega)⟩

set_option maxRecDepth 100000 in
/-- Instance of C5 on the 4×4 all-white bitmap, together with the actual run. -/
theorem floodFill_terminates_witness :
    floodFill (4 * 4 * 4 + 2) 4 4 white4 red 0 0 = some (uniform 16 255 0 0 255) ∧
    (∃ out, ∀ fuel, 4 * 4 * 4 + 2 ≤ fuel → floodFill fuel 4 4 white4 red 0 0 = some out) ∧
    (colorsMatch (getPixel 4 white4 0 0) red = false →
      painted red ≠ getPixel 4 white4 0 0) :=
  ⟨by decide,
    floodFill_terminates 4 4 white4 red 0 0 (by decide)
      ⟨⟨255, rfl, by decide⟩, ⟨0, rfl, by decide⟩, ⟨0, rfl, by decide⟩⟩⟩

/-! ## Facts about the canvas and single calls -/

theorem length_flatten_replicate4 (n a b c d : Nat) :
    ((List.replicate n [a, b, c, d]).flatten).length = n * 4 := by
  induction n with
  | zero => simp
  | succ n ih => simp [List.replicate_succ, ih]; omega

theorem putImageData_width (c : Canvas) (img : ImageData) :
    (putImageData c img).width = c.width := rfl

theorem putImageData_height (c : Canvas) (img : ImageData) :
    (putImageData c img).height = c.height := rfl

theorem putImageData_length (c : Canvas) (img : ImageData) :
    (putImageData c img).data.length = c.data.length := by
  simp [putImageData]

theorem putImageData_same_size (c : Canvas) (img : ImageData) (hc : c.wellSized)
    (hw : img.width = c.width) (hh : img.height = c.height)
    (hlen : img.data.length = img.width * img.height * 4) :
    putImageData c img = { c with data := img.data } := by
  unfold Canvas.wellSized at hc
  have hdata : (putImageData c img).data = img.data := by
    apply List.ext_getElem
    · rw [putImageData_length, hc, hlen, hw, hh]
    · intro i h1 h2
      have hi : i < c.width * c.height * 4 := by
        rw [putImageData_length, hc] at h1; exact h1
      have hp : i / 4 < c.width * c.height := by omega
      have hwpos : 0 < c.width := by
        rcases Nat.eq_zero_or_pos c.width with h0 | h0
        · rw [h0] at hp; simp at hp
        · exact h0
      have hx : (i / 4) % c.width < img.width := by rw [hw]; exact Nat.mod_lt _ hwpos
      have hy : (i / 4) / c.width < img.height := by
        rw [hh]; exact Nat.div_lt_of_lt_mul hp
      have hidx : ((i / 4) / c.width * img.width + (i / 4) % c.width) * 4 + i % 4 = i := by
        rw [hw]
        have e1 : (i / 4) / c.width * c.width + (i / 4) % c.width = i / 4 := by
          rw [Nat.mul_comm]; exact Nat.div_add_mod _ _
        rw [e1]; omega
      simp only [putImageData, List.getElem_map, List.getElem_range, hx, hy, and_self, if_true,
        hidx]
      rw [List.getD_eq_getElem?_getD, List.getElem?_eq_getElem h2]
      rfl
  cases c
  simp only [putImageData] at hdata ⊢
  simp only [Canvas.mk.injEq, true_and]
  exact hdata

theorem saveState_eq (cfg : Config) (s : State) (hw : 0 < s.canvas.width)
    (hh : 0 < s.canvas.height) :
    saveState cfg s = Outcome.ok { s with
      history := (if s.history.length ≥ cfg.maxHistory then s.history.tail else s.history) ++
        [⟨s.canvas.width, s.canvas.height, s.canvas.data⟩] } := by
  unfold saveState getImageData
  by_cases hfull : s.history.length ≥ cfg.maxHistory
  · simp only [hfull, if_true]
    rw [if_neg (by omega)]
  · simp only [hfull, if_false]
    rw [if_neg (by omega)]

theorem undo_empty (s : State) (hempty : s.history = []) : undo s = Outcome.ok s := by
  simp [undo, hempty]

theorem undo_append (s : State) (hs : List ImageData) (lastState : ImageData)
    (hhist : s.history = hs ++ [lastState]) :
    undo s = Outcome.ok { s with history := hs, canvas := putImageData s.canvas lastState } := by
  simp [undo, hhist]

theorem Outcome.All.andThen {P Q : State → Prop} {o : Outcome} {f : State → Outcome}
    (ho : o.All Q) (hthrew : ∀ s, Q s → P s) (hf : ∀ s, Q s → (f s).All P) :
    (o.andThen f).All P := by
  cases o with
  | ok s => exact hf s ho
  | threw s => exact hthrew s ho
  | hang => trivial

theorem saveState_history_le (cfg : Config) (s : State) (hN : 1 ≤ cfg.maxHistory)
    (hle : s.history.length ≤ cfg.maxHistory) :
    (saveState cfg s).All fun s1 => s1.history.length ≤ cfg.maxHistory := by
  unfold saveState
  by_cases hfull : s.history.length ≥ cfg.maxHistory
  · simp only [hfull, if_true]
    split
    · simp only [Outcome.All, List.length_tail]; omega
    · simp only [Outcome.All, List.length_append, List.length_tail, List.length_singleton]
      omega
  · simp only [hfull, if_false]
    split
    · simp only [Outcome.All]; omega
    · simp only [Outcome.All, List.length_append, List.length_singleton]
      omega

theorem floodFillCanvas_history (fuel : Nat) (x y : Int) (s : State) :
    (floodFillCanvas fuel x y s).All fun s1 => s1.history = s.history := by
  unfold floodFillCanvas
  split
  · exact rfl
  · simp only
    split
    · exact rfl
    · split
      · trivial
      · exact rfl

theorem step_history_le (cfg : Config) (R : Rasterizer) (fuel : Nat) (op : Op) (s : State)
    (hN : 1 ≤ cfg.maxHistory) (hle : s.history.length ≤ cfg.maxHistory) :
    (step cfg R fuel op s).All fun s1 => s1.history.length ≤ cfg.maxHistory := by
  have hsave := saveState_history_le cfg
  cases op with
  | saveState => exact hsave s hN hle
  | undo =>
    simp only [step, undo]
    split
    · exact hle
    · split
      · exact hle
      · simp only [Outcome.All, List.length_dropLast]; omega
  | clearCanvas confirmar answer =>
    simp only [step, clearCanvas]
    split
    · exact (hsave s hN hle).andThen (fun _ h => h) (fun _ h => h)
    · exact hle
  | startDraw x y =>
    simp only [step, startDraw]
    split
    · refine (hsave s hN hle).andThen (fun _ h => h) (fun s1 h1 => ?_)
      have := floodFillCanvas_history fuel x y s1
      revert this
      cases floodFillCanvas fuel x y s1 with
      | ok s2 => intro h2; simp only [Outcome.All] at h2 ⊢; rw [h2]; exact h1
      | threw s2 => intro h2; simp only [Outcome.All] at h2 ⊢; rw [h2]; exact h1
      | hang => intro _; trivial
    · exact (hsave s hN hle).andThen (fun _ h => h) (fun _ h => h)
  | draw x y =>
    simp only [step, draw]
    split
    · exact hle
    · exact hle
  | stopDraw =>
    simp only [step, stopDraw]
    split
    · exact hle
    · exact hle
  | resizeCanvas width height =>
    simp only [step, resizeCanvas, clearCanvas, Bool.not_false, Bool.true_or, if_true]
    have h0 := hsave { s with
      canvas := ⟨width, height, (List.replicate (width * height) [0, 0, 0, 0]).flatten⟩
      ctx := [] } hN hle
    refine Outcome.All.andThen (Q := fun s1 => s1.history.length ≤ cfg.maxHistory) ?_
      (fun _ h => h) (fun _ _ => ?_)
    · exact h0.andThen (fun _ h => h) (fun _ h => h)
    · simp [Outcome.All]
  | setTool toolName => exact hle
  | setColor newColor =>
    simp only [step, setColor]
    split
    · exact hle
    · exact hle
  | setSize val => exact hle

theorem run_history_le (cfg : Config) (R : Rasterizer) (fuel : Nat) (hN : 1 ≤ cfg.maxHistory) :
    ∀ (ops : List Op) (s s1 : State), s.history.length ≤ cfg.maxHistory →
      run cfg R fuel ops s = some s1 → s1.history.length ≤ cfg.maxHistory := by
  intro ops
  induction ops with
  | nil =>
    intro s s1 hle hrun
    simp only [run, Option.some.injEq] at hrun
    rw [← hrun]; exact hle
  | cons op ops ih =>
    intro s s1 hle hrun
    have hstep := step_history_le cfg R fuel op s hN hle
    simp only [run] at hrun
    cases hst : step cfg R fuel op s with
    | ok s2 =>
      rw [hst] at hrun hstep
      exact ih s2 s1 hstep hrun
    | threw s2 =>
      rw [hst] at hrun hstep
      exact ih s2 s1 hstep hrun
    | hang =>
      rw [hst] at hrun
      exact absurd hrun (by simp)

/-! ## History claims -/

/-- C6: starting from the initial session (empty history), after every sequence of calls of
`saveState`, `undo`, `clearCanvas`, `startDraw`, `draw`, `stopDraw`, `resizeCanvas`,
`setTool`, `setColor` and `setSize` the history holds at most `CONFIG.maxHistory` = 20
snapshots. -/
theorem history_length_le_maxHistory (R : Rasterizer) (fuel : Nat) (ops : List Op) (c : Canvas)
    (s : State) (hrun : run CONFIG R fuel ops (initial c) = some s) :
    s.history.length ≤ CONFIG.maxHistory ∧ CONFIG.maxHistory = 20 :=
  ⟨run_history_le CONFIG R fuel (by decide) ops (initial c) s (by simp [initial]) hrun, rfl⟩

set_option maxRecDepth 100000 in
/-- Instance of C6: twenty-five `saveState` calls followed by a bucket fill on a 1×1 canvas
leave exactly twenty snapshots, so the bound is reached and not exceeded. -/
theorem history_length_le_maxHistory_witness :
    run CONFIG noInk 6 (List.replicate 25 Op.saveState ++ [Op.setTool Tool.bucket, Op.startDraw 0 0])
        (initial ⟨1, 1, [0, 0, 0, 0]⟩) =
      some { isDrawing := false, tool := Tool.bucket, color := "#11111b", size := Val.num 5,
             history := List.replicate 20 ⟨1, 1, [0, 0, 0, 0]⟩,
             canvas := ⟨1, 1, [17, 17, 27, 255]⟩, ctx := [] } ∧
    (List.replicate 20 (ImageData.mk 1 1 [0, 0, 0, 0])).length ≤ CONFIG.maxHistory ∧
    CONFIG.maxHistory = 20 :=
  ⟨by decide,
    history_length_le_maxHistory noInk 6
      (List.replicate 25 Op.saveState ++ [Op.setTool Tool.bucket, Op.startDraw 0 0])
      ⟨1, 1, [0, 0, 0, 0]⟩
      { isDrawing := false, tool := Tool.bucket, color := "#11111b", size := Val.num 5,
        history := List.replicate 20 ⟨1, 1, [0, 0, 0, 0]⟩,
        canvas := ⟨1, 1, [17, 17, 27, 255]⟩, ctx := [] } (by decide)⟩

/-! ## Runs of saves and of undos -/

theorem drop_excess_append {α : Type} (n : Nat) (l m : List α) :
    ((l.drop (l.length - n)) ++ m).drop (((l.drop (l.length - n)) ++ m).length - n) =
      (l ++ m).drop ((l ++ m).length - n) := by
  have hk : l.length - n ≤ l.length := Nat.sub_le _ _
  have hsplit : l.drop (l.length - n) ++ m = (l ++ m).drop (l.length - n) := by
    rw [List.drop_append_of_le_length hk]
  rw [hsplit, List.drop_drop]
  congr 1
  simp only [List.length_drop, List.length_append]
  omega

theorem saveState_history (cfg : Config) (s : State) (hw : 0 < s.canvas.width)
    (hh : 0 < s.canvas.height) (hN : 1 ≤ cfg.maxHistory)
    (hle : s.history.length ≤ cfg.maxHistory) :
    ∃ s1, saveState cfg s = Outcome.ok s1 ∧ s1.canvas = s.canvas ∧
      s1.history = (s.history ++ [ImageData.mk s.canvas.width s.canvas.height s.canvas.data]).drop
        ((s.history ++ [ImageData.mk s.canvas.width s.canvas.height s.canvas.data]).length -
          cfg.maxHistory) := by
  refine ⟨_, saveState_eq cfg s hw hh, rfl, ?_⟩
  simp only [List.length_append, List.length_singleton]
  by_cases hfull : s.history.length ≥ cfg.maxHistory
  · have hlen : s.history.length = cfg.maxHistory := by omega
    have h1 : s.history.length + 1 - cfg.maxHistory = 1 := by omega
    simp only [hfull, if_true, h1]
    cases hhist : s.history with
    | nil => rw [hhist] at hlen; simp at hlen; omega
    | cons a t => simp
  · have h0 : s.history.length + 1 - cfg.maxHistory = 0 := by omega
    simp only [hfull, if_false, h0, List.drop_zero]

theorem savesOf_spec (cfg : Config) (hN : 1 ≤ cfg.maxHistory) :
    ∀ (bufs : List (List Nat)) (s : State), 0 < s.canvas.width → 0 < s.canvas.height →
      s.history.length ≤ cfg.maxHistory →
      ∃ s1, savesOf cfg bufs s = some s1 ∧ s1.canvas.width = s.canvas.width ∧
        s1.canvas.height = s.canvas.height ∧
        s1.canvas.data = (bufs.getLast?).getD s.canvas.data ∧
        s1.history =
          (s.history ++ bufs.map (fun b => ImageData.mk s.canvas.width s.canvas.height b)).drop
            ((s.history ++
              bufs.map (fun b => ImageData.mk s.canvas.width s.canvas.height b)).length -
                cfg.maxHistory) := by
  intro bufs
  induction bufs with
  | nil =>
    intro s _ _ hle
    refine ⟨s, rfl, rfl, rfl, rfl, ?_⟩
    simp only [List.map_nil, List.append_nil]
    have : s.history.length - cfg.maxHistory = 0 := by omega
    rw [this, List.drop_zero]
  | cons b bs ih =>
    intro s hw hh hle
    obtain ⟨s1, hsave, hcanvas, hhist⟩ :=
      saveState_history cfg (s.withData b) hw hh hN hle
    have hle1 : s1.history.length ≤ cfg.maxHistory := by
      rw [hhist]
      simp only [List.length_drop, List.length_append, List.length_singleton]
      omega
    have hw1 : 0 < s1.canvas.width := by rw [hcanvas]; exact hw
    have hh1 : 0 < s1.canvas.height := by rw [hcanvas]; exact hh
    obtain ⟨s2, hrest, hw2, hh2, hd2, hhist2⟩ := ih s1 hw1 hh1 hle1
    refine ⟨s2, ?_, ?_, ?_, ?_, ?_⟩
    · simp only [savesOf, hsave]; exact hrest
    · rw [hw2, hcanvas]; rfl
    · rw [hh2, hcanvas]; rfl
    · rw [hd2, hcanvas]
      cases bs with
      | nil => rfl
      | cons b2 bs2 =>
        rw [List.getLast?_cons_cons]
        cases hl : (b2 :: bs2).getLast? with
        | none => simp at hl
        | some v => rfl
    · rw [hhist2, hhist, hcanvas]
      have := drop_excess_append cfg.maxHistory
        (s.history ++ [ImageData.mk s.canvas.width s.canvas.height b])
        (bs.map (fun b => ImageData.mk s.canvas.width s.canvas.height b))
      simpa [State.withData] using this

theorem State.wellSized_undo (s : State) (hs : s.wellSized) :
    ∃ s1, undo s = Outcome.ok s1 ∧ s1.wellSized ∧ s1.canvas.width = s.canvas.width ∧
      s1.canvas.height = s.canvas.height ∧
      (∀ img ∈ s1.history, img ∈ s.history) ∧
      (s1.canvas.data = s.canvas.data ∨ ∃ img ∈ s.history, s1.canvas.data = img.data) := by
  rcases List.eq_nil_or_concat s.history with hnil | ⟨hs0, lastState, hhist⟩
  · exact ⟨s, undo_empty s hnil, hs, rfl, rfl, fun _ h => h, Or.inl rfl⟩
  · rw [List.concat_eq_append] at hhist
    obtain ⟨hsize, hall⟩ := hs
    obtain ⟨hlw, hlh, hll⟩ := hall lastState (by rw [hhist]; simp)
    refine ⟨_, undo_append s hs0 lastState hhist, ?_, rfl, rfl, ?_, Or.inr ⟨lastState, ?_, ?_⟩⟩
    · rw [putImageData_same_size s.canvas lastState hsize hlw hlh hll]
      refine ⟨?_, fun img himg => hall img (by rw [hhist]; simp [himg])⟩
      simp only [Canvas.wellSized]
      rw [hll, hlw, hlh]
    · intro img himg
      rw [hhist]; simp only [List.mem_append]; exact Or.inl himg
    · rw [hhist]; simp
    · rw [putImageData_same_size s.canvas lastState hsize hlw hlh hll]

theorem undos_spec : ∀ (k : Nat) (s : State), s.wellSized →
    ∃ s1, undos k s = some s1 ∧
      (s1.canvas.data = s.canvas.data ∨ ∃ img ∈ s.history, s1.canvas.data = img.data) := by
  intro k
  induction k with
  | zero => intro s _; exact ⟨s, rfl, Or.inl rfl⟩
  | succ k ih =>
    intro s hs
    obtain ⟨s1, hundo, hs1, _, _, hsub, hdata⟩ := s.wellSized_undo hs
    obtain ⟨s2, hrest, hdata2⟩ := ih s1 hs1
    refine ⟨s2, by simp only [undos, hundo]; exact hrest, ?_⟩
    rcases hdata2 with h2 | ⟨img, himg, h2⟩
    · rw [h2]; exact hdata
    · exact Or.inr ⟨img, hsub img himg, h2⟩

theorem savesOf_from_empty (cfg : Config) (s0 : State) (bufs : List (List Nat))
    (hN : 1 ≤ cfg.maxHistory) (hw0 : 0 < s0.canvas.width) (hh0 : 0 < s0.canvas.height)
    (hempty : s0.history = []) (hcount : bufs.length = cfg.maxHistory + 1)
    (hsize : ∀ b ∈ bufs, b.length = s0.canvas.width * s0.canvas.height * 4) :
    ∃ s1, savesOf cfg bufs s0 = some s1 ∧ s1.wellSized ∧ s1.canvas.data ∈ bufs.tail ∧
      s1.history = bufs.tail.map (fun b => ImageData.mk s0.canvas.width s0.canvas.height b) := by
  obtain ⟨s1, hrun, hw1, hh1, hd1, hhist1⟩ :=
    savesOf_spec cfg hN bufs s0 hw0 hh0 (by rw [hempty]; simp)
  have hhist : s1.history =
      bufs.tail.map (fun b => ImageData.mk s0.canvas.width s0.canvas.height b) := by
    rw [hhist1, hempty]
    simp only [List.nil_append, List.length_map, hcount, Nat.add_sub_cancel_left]
    cases bufs with
    | nil => rfl
    | cons b bs => simp
  obtain ⟨b1, rest, hb⟩ : ∃ b1 rest, bufs = b1 :: rest := by
    cases bufs with
    | nil => simp at hcount
    | cons b bs => exact ⟨b, bs, rfl⟩
  obtain ⟨b2, rest2, hb2⟩ : ∃ b2 rest2, rest = b2 :: rest2 := by
    cases rest with
    | nil => rw [hb] at hcount; simp at hcount; omega
    | cons b bs => exact ⟨b, bs, rfl⟩
  have hlast : s1.canvas.data ∈ bufs.tail := by
    rw [hd1, hb, hb2, List.getLast?_cons_cons]
    cases hl : (b2 :: rest2).getLast? with
    | none => simp at hl
    | some v => exact by simpa [hb, hb2] using List.mem_of_getLast?_eq_some hl
  refine ⟨s1, hrun, ⟨?_, ?_⟩, hlast, hhist⟩
  · simp only [Canvas.wellSized]
    rw [hw1, hh1]
    exact hsize _ (List.mem_of_mem_tail hlast)
  · intro img himg
    rw [hhist] at himg
    obtain ⟨b, hbmem, rfl⟩ := List.mem_map.mp himg
    exact ⟨hw1.symm, hh1.symm, hsize b (List.mem_of_mem_tail hbmem)⟩

/-- C7: when the history holds `maxHistory` snapshots `[s1, ..., sN]`, `saveState` yields
exactly `[s2, ..., sN, copy of the bitmap]`. Hence after `N + 1` saves from an empty
history, of the bitmaps `bufs`, the history is exactly the snapshots of saves `2 .. N + 1`,
and whatever the number of `undo` calls the bitmap restored is one of those; so when the
first bitmap differs from the later ones its snapshot is gone and no run of undos brings
it back. -/
theorem saveState_fifo (cfg : Config) (s s0 : State) (bufs : List (List Nat))
    (hw : 0 < s.canvas.width) (hh : 0 < s.canvas.height)
    (hfull : s.history.length = cfg.maxHistory) (hN : 1 ≤ cfg.maxHistory)
    (hw0 : 0 < s0.canvas.width) (hh0 : 0 < s0.canvas.height) (hempty : s0.history = [])
    (hcount : bufs.length = cfg.maxHistory + 1)
    (hsize : ∀ b ∈ bufs, b.length = s0.canvas.width * s0.canvas.height * 4) :
    saveState cfg s = Outcome.ok { s with
      history := s.history.tail ++ [ImageData.mk s.canvas.width s.canvas.height s.canvas.data] } ∧
    ∃ s1, savesOf cfg bufs s0 = some s1 ∧
      s1.history = bufs.tail.map (fun b => ImageData.mk s0.canvas.width s0.canvas.height b) ∧
      (∀ k, ∃ s2, undos k s1 = some s2 ∧ s2.canvas.data ∈ bufs.tail) ∧
      (∀ first, bufs.head? = some first → first ∉ bufs.tail →
        ImageData.mk s0.canvas.width s0.canvas.height first ∉ s1.history ∧
        ∀ k s2, undos k s1 = some s2 → s2.canvas.data ≠ first) := by
  constructor
  · rw [saveState_eq cfg s hw hh]
    simp [hfull]
  · obtain ⟨s1, hrun, hs1, hlast, hhist⟩ :=
      savesOf_from_empty cfg s0 bufs hN hw0 hh0 hempty hcount hsize
    have hundos : ∀ k, ∃ s2, undos k s1 = some s2 ∧ s2.canvas.data ∈ bufs.tail := by
      intro k
      obtain ⟨s2, hk, hdata⟩ := undos_spec k s1 hs1
      refine ⟨s2, hk, ?_⟩
      rcases hdata with h | ⟨img, himg, h⟩
      · rw [h]; exact hlast
      · rw [hhist] at himg
        obtain ⟨b, hbmem, rfl⟩ := List.mem_map.mp himg
        rw [h]; exact hbmem
    refine ⟨s1, hrun, hhist, hundos, fun first _ hnot => ⟨?_, fun k s2 hk heq => ?_⟩⟩
    · rw [hhist]
      intro hmem
      obtain ⟨b, hbmem, hb⟩ := List.mem_map.mp hmem
      simp only [ImageData.mk.injEq, true_and] at hb
      exact hnot (hb ▸ hbmem)
    · obtain ⟨s2', hk', hmem⟩ := hundos k
      rw [hk] at hk'
      simp only [Option.some.injEq] at hk'
      rw [← hk', heq] at hmem
      exact hnot hmem

set_option maxRecDepth 100000 in
/-- Instance of C7 with room for two snapshots on a 1×1 canvas: a save on the full history
`[a, b]` gives `[b, current]`; three saves of the bitmaps 1, 2, 3 from an empty history
leave the snapshots 2 and 3, and three undos end on bitmap 2. -/
theorem saveState_fifo_witness :
    undos 3 { initial ⟨1, 1, [3, 3, 3, 3]⟩ with
      history := [⟨1, 1, [2, 2, 2, 2]⟩, ⟨1, 1, [3, 3, 3, 3]⟩] } =
      some (initial ⟨1, 1, [2, 2, 2, 2]⟩) ∧
    (saveState config2 { initial ⟨1, 1, [9, 9, 9, 9]⟩ with
        history := [⟨1, 1, [7, 7, 7, 7]⟩, ⟨1, 1, [8, 8, 8, 8]⟩] } =
      Outcome.ok { initial ⟨1, 1, [9, 9, 9, 9]⟩ with
        history := [⟨1, 1, [8, 8, 8, 8]⟩, ⟨1, 1, [9, 9, 9, 9]⟩] } ∧
    ∃ s1, savesOf config2 [[1, 1, 1, 1], [2, 2, 2, 2], [3, 3, 3, 3]]
        (initial ⟨1, 1, [0, 0, 0, 0]⟩) = some s1 ∧
      s1.history = [⟨1, 1, [2, 2, 2, 2]⟩, ⟨1, 1, [3, 3, 3, 3]⟩] ∧
      (∀ k, ∃ s2, undos k s1 = some s2 ∧ s2.canvas.data ∈ [[2, 2, 2, 2], [3, 3, 3, 3]]) ∧
      (∀ first, some [1, 1, 1, 1] = some first → first ∉ [[2, 2, 2, 2], [3, 3, 3, 3]] →
        ImageData.mk 1 1 first ∉ s1.history ∧
        ∀ k s2, undos k s1 = some s2 → s2.canvas.data ≠ first)) :=
  ⟨by decide,
    saveState_fifo config2
      { initial ⟨1, 1, [9, 9, 9, 9]⟩ with
        history := [⟨1, 1, [7, 7, 7, 7]⟩, ⟨1, 1, [8, 8, 8, 8]⟩] }
      (initial ⟨1, 1, [0, 0, 0, 0]⟩) [[1, 1, 1, 1], [2, 2, 2, 2], [3, 3, 3, 3]]
      (by decide) (by decide) (by decide) (by decide) (by decide) (by decide) rfl (by decide)
      (by decide)⟩

/-- C8: for every well-sized canvas with positive dimensions and every history, `saveState`
followed by any replacement of the bitmap that keeps its length, followed by `undo`,
leaves the canvas (dimensions and every byte of the bitmap) as it was before the save. -/
theorem save_undo_roundtrip (cfg : Config) (s : State) (mutated : List Nat)
    (hw : 0 < s.canvas.width) (hh : 0 < s.canvas.height) (hsized : s.canvas.wellSized)
    (hkeep : mutated.length = s.canvas.data.length) :
    ∃ s1, saveState cfg s = Outcome.ok s1 ∧ s1.canvas = s.canvas ∧
      ∃ s2, undo (s1.withData mutated) = Outcome.ok s2 ∧ s2.canvas = s.canvas ∧
        s2.canvas.data = s.canvas.data := by
  refine ⟨_, saveState_eq cfg s hw hh, rfl, ?_⟩
  refine ⟨_, undo_append _ _ (ImageData.mk s.canvas.width s.canvas.height s.canvas.data) rfl, ?_⟩
  have hput : putImageData { s.canvas with data := mutated }
      (ImageData.mk s.canvas.width s.canvas.height s.canvas.data) = s.canvas := by
    have hm : Canvas.wellSized { s.canvas with data := mutated } := by
      simp only [Canvas.wellSized]; rw [hkeep]; exact hsized
    rw [putImageData_same_size _
      (ImageData.mk s.canvas.width s.canvas.height s.canvas.data) hm rfl rfl hsized]
  simp only [State.withData]
  exact ⟨hput, by rw [hput]⟩

/-- Instance of C8 on a 2×1 canvas with a full history of twenty snapshots. -/
theorem save_undo_roundtrip_witness :
    ∃ s1, saveState CONFIG { initial ⟨2, 1, [1, 2, 3, 4, 5, 6, 7, 8]⟩ with
          history := List.replicate 20 ⟨2, 1, [0, 0, 0, 0, 0, 0, 0, 0]⟩ } = Outcome.ok s1 ∧
      s1.canvas = ⟨2, 1, [1, 2, 3, 4, 5, 6, 7, 8]⟩ ∧
      ∃ s2, undo (s1.withData [9, 9, 9, 9, 9, 9, 9, 9]) = Outcome.ok s2 ∧
        s2.canvas = ⟨2, 1, [1, 2, 3, 4, 5, 6, 7, 8]⟩ ∧
        s2.canvas.data = [1, 2, 3, 4, 5, 6, 7, 8] :=
  save_undo_roundtrip CONFIG { initial ⟨2, 1, [1, 2, 3, 4, 5, 6, 7, 8]⟩ with
      history := List.replicate 20 ⟨2, 1, [0, 0, 0, 0, 0, 0, 0, 0]⟩ }
    [9, 9, 9, 9, 9, 9, 9, 9] (by decide) (by decide) (by decide) (by decide)

/-- C9: `undo` on an empty history returns normally and leaves the whole state as it was:
the bitmap, the (empty) history and every other field. -/
theorem undo_empty_noop (s : State) (hempty : s.history = []) :
    undo s = Outcome.ok s ∧
      ∀ s1, undo s = Outcome.ok s1 → s1.canvas = s.canvas ∧ s1.history = [] := by
  refine ⟨undo_empty s hempty, fun s1 h1 => ?_⟩
  rw [undo_empty s hempty] at h1
  simp only [Outcome.ok.injEq] at h1
  subst h1
  exact ⟨rfl, hempty⟩

/-- Instance of C9 on the initial session with a 1×1 canvas. -/
theorem undo_empty_noop_witness :
    undo (initial ⟨1, 1, [5, 6, 7, 8]⟩) = Outcome.ok (initial ⟨1, 1, [5, 6, 7, 8]⟩) ∧
      ∀ s1, undo (initial ⟨1, 1, [5, 6, 7, 8]⟩) = Outcome.ok s1 →
        s1.canvas = (initial ⟨1, 1, [5, 6, 7, 8]⟩).canvas ∧ s1.history = [] :=
  undo_empty_noop (initial ⟨1, 1, [5, 6, 7, 8]⟩) rfl

/-! ## Well-sized states are preserved -/

theorem floodLoop_length (w h : Nat) (target c : Color) :
    ∀ (fuel : Nat) (data : List Nat) (stack : List (Int × Int)) (out : List Nat),
      floodLoop w h target c fuel data stack = some out → out.length = data.length := by
  intro fuel
  induction fuel with
  | zero => intro data stack out hrun; simp [floodLoop] at hrun
  | succ fuel ih =>
    intro data stack out hrun
    cases stack with
    | nil =>
      simp only [floodLoop, Option.some.injEq] at hrun
      rw [hrun]
    | cons top rest =>
      obtain ⟨x, y⟩ := top
      simp only [floodLoop] at hrun
      split at hrun
      · exact ih _ _ _ hrun
      · split at hrun
        · exact ih _ _ _ hrun
        · rw [ih _ _ _ hrun, paintPixel_length]

theorem State.wellSized_of_canvas {s s1 : State} (hs : s.wellSized)
    (hw : s1.canvas.width = s.canvas.width) (hh : s1.canvas.height = s.canvas.height)
    (hlen : s1.canvas.data.length = s.canvas.data.length)
    (hhist : ∀ img ∈ s1.history, img ∈ s.history) : s1.wellSized := by
  obtain ⟨hc, hall⟩ := hs
  refine ⟨?_, fun img himg => ?_⟩
  · simp only [Canvas.wellSized] at hc ⊢
    rw [hlen, hw, hh]; exact hc
  · rw [hw, hh]; exact hall img (hhist img himg)

theorem saveState_wellSized (cfg : Config) (s : State) (hs : s.wellSized) :
    (saveState cfg s).All fun s1 => s1.wellSized ∧ s1.canvas = s.canvas := by
  have htail : ∀ img ∈ s.history.tail, img ∈ s.history := fun _ h => List.mem_of_mem_tail h
  unfold saveState getImageData
  by_cases hfull : s.history.length ≥ cfg.maxHistory
  · by_cases hz : s.canvas.width = 0 ∨ s.canvas.height = 0
    · simp only [hfull, hz, if_true]
      exact ⟨State.wellSized_of_canvas hs rfl rfl rfl htail, rfl⟩
    · simp only [hfull, hz, if_true, if_false]
      refine ⟨⟨hs.1, fun img himg => ?_⟩, rfl⟩
      simp only [List.mem_append, List.mem_singleton] at himg
      rcases himg with h | rfl
      · exact hs.2 img (htail img h)
      · exact ⟨rfl, rfl, hs.1⟩
  · by_cases hz : s.canvas.width = 0 ∨ s.canvas.height = 0
    · simp only [hfull, hz, if_true, if_false]
      exact ⟨hs, rfl⟩
    · simp only [hfull, hz, if_false]
      refine ⟨⟨hs.1, fun img himg => ?_⟩, rfl⟩
      simp only [List.mem_append, List.mem_singleton] at himg
      rcases himg with h | rfl
      · exact hs.2 img h
      · exact ⟨rfl, rfl, hs.1⟩

theorem floodFillCanvas_wellSized (fuel : Nat) (x y : Int) (s : State) (hs : s.wellSized) :
    (floodFillCanvas fuel x y s).All State.wellSized := by
  unfold floodFillCanvas
  split
  · exact hs
  · simp only
    split
    · exact hs
    · split
      · trivial
      · exact State.wellSized_of_canvas hs rfl rfl (putImageData_length _ _) (fun _ h => h)

theorem step_wellSized (cfg : Config) (R : Rasterizer) (fuel : Nat) (op : Op) (s : State)
    (hs : s.wellSized) (hop : op.positive) :
    (step cfg R fuel op s).All State.wellSized := by
  cases op with
  | saveState =>
    have := saveState_wellSized cfg s hs
    simp only [step]
    cases hsv : saveState cfg s with
    | ok s1 => rw [hsv] at this; exact this.1
    | threw s1 => rw [hsv] at this; exact this.1
    | hang => trivial
  | undo =>
    obtain ⟨s1, hundo, hs1, _⟩ := s.wellSized_undo hs
    simp only [step, hundo]
    exact hs1
  | clearCanvas confirmar answer =>
    simp only [step, clearCanvas]
    split
    · refine (saveState_wellSized cfg s hs).andThen (fun _ h => h.1) (fun s1 h1 => ?_)
      refine ⟨?_, h1.1.2⟩
      simp only [Canvas.wellSized, length_flatten_replicate4]
    · exact hs
  | startDraw x y =>
    simp only [step, startDraw]
    split
    · exact (saveState_wellSized cfg s hs).andThen (fun _ h => h.1)
        (fun s1 h1 => floodFillCanvas_wellSized fuel x y s1 h1.1)
    · refine (saveState_wellSized cfg s hs).andThen (fun _ h => h.1) (fun s1 h1 => ?_)
      exact State.wellSized_of_canvas h1.1 rfl rfl (R.stroke_length _ _) (fun _ h => h)
  | draw x y =>
    simp only [step, draw]
    split
    · exact hs
    · exact State.wellSized_of_canvas hs rfl rfl (R.stroke_length _ _) (fun _ h => h)
  | stopDraw =>
    simp only [step, stopDraw]
    split
    · exact State.wellSized_of_canvas hs rfl rfl rfl (fun _ h => h)
    · exact hs
  | resizeCanvas width height =>
    obtain ⟨hw, hh⟩ := hop
    simp only [step, resizeCanvas, clearCanvas, Bool.not_false, Bool.true_or, if_true]
    rw [saveState_eq cfg _ hw hh]
    refine ⟨?_, fun img himg => ?_⟩
    · simp only [Canvas.wellSized, length_flatten_replicate4]
    · simp at himg
  | setTool toolName => exact hs
  | setColor newColor =>
    simp only [step, setColor]
    split
    · exact hs
    · exact hs
  | setSize val => exact hs

theorem run_wellSized (cfg : Config) (R : Rasterizer) (fuel : Nat) :
    ∀ (ops : List Op) (s s1 : State), s.wellSized → (∀ op ∈ ops, op.positive) →
      run cfg R fuel ops s = some s1 → s1.wellSized := by
  intro ops
  induction ops with
  | nil =>
    intro s s1 hs _ hrun
    simp only [run, Option.some.injEq] at hrun
    rw [← hrun]; exact hs
  | cons op ops ih =>
    intro s s1 hs hpos hrun
    have hstep := step_wellSized cfg R fuel op s hs (hpos op (List.mem_cons_self _ _))
    have hpos' : ∀ o ∈ ops, o.positive := fun o ho => hpos o (List.mem_cons_of_mem _ ho)
    simp only [run] at hrun
    cases hst : step cfg R fuel op s with
    | ok s2 =>
      rw [hst] at hrun hstep
      exact ih s2 s1 hstep hpos' hrun
    | threw s2 =>
      rw [hst] at hrun hstep
      exact ih s2 s1 hstep hpos' hrun
    | hang =>
      rw [hst] at hrun
      exact absurd hrun (by simp)

/-! ## The fill as a method and the fill on the pixel array -/

theorem floodFillCanvas_eq (fuel : Nat) (x y : Int) (s : State) (hw : 0 < s.canvas.width)
    (hh : 0 < s.canvas.height) (hsized : s.canvas.wellSized) :
    floodFillCanvas fuel x y s =
      match floodFill fuel s.canvas.width s.canvas.height s.canvas.data (hexToRgba s.color) x y with
      | none => Outcome.hang
      | some out => Outcome.ok (s.withData out) := by
  have hget : getImageData s.canvas = some ⟨s.canvas.width, s.canvas.height, s.canvas.data⟩ := by
    unfold getImageData
    rw [if_neg (by omega)]
  unfold floodFillCanvas floodFill
  rw [hget]
  simp only
  by_cases hm : colorsMatch (getPixel s.canvas.width s.canvas.data x y) (hexToRgba s.color) = true
  · simp only [hm, if_true]
    rfl
  · simp only [hm, if_false]
    cases hrun : floodLoop s.canvas.width s.canvas.height
        (getPixel s.canvas.width s.canvas.data x y) (hexToRgba s.color) fuel s.canvas.data
        [(x, y)] with
    | none => rfl
    | some out =>
      have hlen := floodLoop_length _ _ _ _ _ _ _ _ hrun
      simp only [State.withData]
      rw [putImageData_same_size s.canvas ⟨s.canvas.width, s.canvas.height, out⟩ hsized rfl rfl
        (by simp only; rw [hlen]; exact hsized)]
      simp

/-- C10: in every state reached from the initial session (by calls whose resizes give the
canvas positive dimensions), `undo` on a non-empty history `[s1, ..., sk]` sets the bitmap
to that of `sk`, leaves the history `[s1, ..., s(k-1)]` and changes nothing else: exactly
one level is consumed, last in first out. -/
theorem undo_lifo (cfg : Config) (R : Rasterizer) (fuel : Nat) (ops : List Op) (c : Canvas)
    (s : State) (hs : List ImageData) (lastState : ImageData) (hc : c.wellSized)
    (hops : ∀ op ∈ ops, op.positive) (hrun : run cfg R fuel ops (initial c) = some s)
    (hhist : s.history = hs ++ [lastState]) :
    undo s = Outcome.ok { s with
      history := hs, canvas := { s.canvas with data := lastState.data } } := by
  have hinit : (initial c).wellSized := ⟨hc, fun img himg => by simp [initial] at himg⟩
  have hsz := run_wellSized cfg R fuel ops (initial c) s hinit hops hrun
  obtain ⟨hw, hh, hl⟩ := hsz.2 lastState (by rw [hhist]; simp)
  rw [undo_append s hs lastState hhist, putImageData_same_size s.canvas lastState hsz.1 hw hh hl]

set_option maxRecDepth 100000 in
/-- Scenario for C10 with room for two snapshots: after the saves of snapshots 1, 2, 3 the
first undo restores snapshot 3, the second restores snapshot 2 and the third changes
nothing. -/
theorem undo_lifo_witness :
    run config2 noInk 6 threeFills (initial ⟨1, 1, [0, 0, 0, 0]⟩) = some afterThreeFills ∧
    undos 1 afterThreeFills = some { afterThreeFills with
      history := [⟨1, 1, [17, 17, 27, 255]⟩], canvas := ⟨1, 1, [243, 139, 168, 255]⟩ } ∧
    undos 2 afterThreeFills = some { afterThreeFills with
      history := [], canvas := ⟨1, 1, [17, 17, 27, 255]⟩ } ∧
    undos 3 afterThreeFills = undos 2 afterThreeFills ∧
    undo afterThreeFills = Outcome.ok { afterThreeFills with
      history := [⟨1, 1, [17, 17, 27, 255]⟩],
      canvas := { afterThreeFills.canvas with data := [243, 139, 168, 255] } } :=
  ⟨by decide, by decide, by decide, by decide,
    undo_lifo config2 noInk 6 threeFills ⟨1, 1, [0, 0, 0, 0]⟩ afterThreeFills
      [⟨1, 1, [17, 17, 27, 255]⟩] ⟨1, 1, [243, 139, 168, 255]⟩ (by decide) (by decide)
      (by decide) rfl⟩

/-! ## Tool, colour and size selection -/

theorem setColor_eq (s : State) (newColor : String) :
    setColor newColor s = Outcome.ok { s with
      color := newColor, tool := if s.tool = Tool.eraser then Tool.brush else s.tool } := by
  unfold setColor setTool
  by_cases ht : s.tool = Tool.eraser
  · simp only [ht, if_true]
  · simp only [ht, if_false]

/-- C15: for every session state `setTool`, `setColor` and `setSize` return normally and
leave the history and the canvas (dimensions and bitmap) unchanged. -/
theorem selection_keeps_history_and_canvas (s : State) (toolName : Tool) (newColor val : String) :
    (∃ s1, setTool toolName s = Outcome.ok s1 ∧ s1.history = s.history ∧ s1.canvas = s.canvas) ∧
    (∃ s1, setColor newColor s = Outcome.ok s1 ∧ s1.history = s.history ∧
      s1.canvas = s.canvas) ∧
    (∃ s1, setSize val s = Outcome.ok s1 ∧ s1.history = s.history ∧ s1.canvas = s.canvas) :=
  ⟨⟨_, rfl, rfl, rfl⟩, ⟨_, setColor_eq s newColor, rfl, rfl⟩, ⟨_, rfl, rfl, rfl⟩⟩

/-- C19: `setColor(c)` returns normally; it sets `state.color` to `c` and switches the tool
to the brush exactly when the tool was the eraser (a brush or a bucket is left as it was);
the size, the stroke flag, the history, the canvas and the context are unchanged. -/
theorem setColor_effect (s : State) (newColor : String) :
    setColor newColor s = Outcome.ok
      { isDrawing := s.isDrawing
        tool := if s.tool = Tool.eraser then Tool.brush else s.tool
        color := newColor
        size := s.size
        history := s.history
        canvas := s.canvas
        ctx := s.ctx } :=
  setColor_eq s newColor

/-- Instances of C19 for the three tools. -/
theorem setColor_effect_witness :
    setColor "#f38ba8" { initial ⟨1, 1, [0, 0, 0, 0]⟩ with tool := Tool.eraser } =
      Outcome.ok { initial ⟨1, 1, [0, 0, 0, 0]⟩ with tool := Tool.brush, color := "#f38ba8" } ∧
    setColor "#f38ba8" { initial ⟨1, 1, [0, 0, 0, 0]⟩ with tool := Tool.bucket } =
      Outcome.ok { initial ⟨1, 1, [0, 0, 0, 0]⟩ with tool := Tool.bucket, color := "#f38ba8" } ∧
    setColor "#f38ba8" (initial ⟨1, 1, [0, 0, 0, 0]⟩) =
      Outcome.ok { initial ⟨1, 1, [0, 0, 0, 0]⟩ with tool := Tool.brush, color := "#f38ba8" } :=
  ⟨setColor_effect _ _, setColor_effect _ _, setColor_effect _ _⟩

/-! ## Uniform bitmaps, resize and clear -/

theorem uniform_succ (n r g b a : Nat) :
    uniform (n + 1) r g b a = r :: g :: b :: a :: uniform n r g b a := by
  simp [uniform, List.replicate_succ]

theorem uniform_length (n r g b a : Nat) : (uniform n r g b a).length = n * 4 :=
  length_flatten_replicate4 n r g b a

theorem readByte_cons4 (r g b a : Nat) (l : List Nat) (k : Nat) :
    readByte (r :: g :: b :: a :: l) ((k + 4 : Nat) : Int) = readByte l (k : Int) := by
  rw [readByte_natCast, readByte_natCast]
  have e : (r :: g :: b :: a :: l)[k + 4]? = l[k]? := by
    rw [show k + 4 = k + 1 + 1 + 1 + 1 from rfl]
    simp only [List.getElem?_cons_succ]
  rw [e]

theorem pixelAt_cons4 (r g b a : Nat) (l : List Nat) (p : Nat) :
    pixelAt (r :: g :: b :: a :: l) ((4 * (p + 1) : Nat) : Int) =
      pixelAt l ((4 * p : Nat) : Int) := by
  have h0 : ((4 * (p + 1) : Nat) : Int) = ((4 * p + 4 : Nat) : Int) := by congr 1
  have h1 : ((4 * (p + 1) : Nat) : Int) + 1 = ((4 * p + 1 + 4 : Nat) : Int) := by
    push_cast; ring
  have h2 : ((4 * (p + 1) : Nat) : Int) + 2 = ((4 * p + 2 + 4 : Nat) : Int) := by
    push_cast; ring
  have h3 : ((4 * (p + 1) : Nat) : Int) + 3 = ((4 * p + 3 + 4 : Nat) : Int) := by
    push_cast; ring
  have g1 : ((4 * p : Nat) : Int) + 1 = ((4 * p + 1 : Nat) : Int) := by push_cast; ring
  have g2 : ((4 * p : Nat) : Int) + 2 = ((4 * p + 2 : Nat) : Int) := by push_cast; ring
  have g3 : ((4 * p : Nat) : Int) + 3 = ((4 * p + 3 : Nat) : Int) := by push_cast; ring
  unfold pixelAt
  rw [h1, h2, h3, h0, g1, g2, g3]
  simp only [readByte_cons4]

theorem pixelAt_uniform (r g b a : Nat) : ∀ (n p : Nat), p < n →
    pixelAt (uniform n r g b a) ((4 * p : Nat) : Int) =
      ⟨Val.num r, Val.num g, Val.num b, Val.num a⟩ := by
  intro n
  induction n with
  | zero => intro p hp; omega
  | succ n ih =>
    intro p hp
    rw [uniform_succ]
    cases p with
    | zero =>
      rw [pixelAt_natCast]
      simp [readByte]
    | succ p =>
      rw [pixelAt_cons4]
      exact ih p (by omega)

theorem getPixel_uniform {w h : Nat} {x y : Int} (hin : inBounds w h x y) (r g b a : Nat) :
    getPixel w (uniform (w * h) r g b a) x y = ⟨Val.num r, Val.num g, Val.num b, Val.num a⟩ := by
  obtain ⟨he, hlt⟩ := flat_spec hin
  rw [getPixel_eq_pixelAt, he]
  exact pixelAt_uniform r g b a _ _ hlt

theorem clearCanvas_eq (cfg : Config) (confirmar answer : Bool) (s : State)
    (hconfirmed : (!confirmar || answer) = true) (hw : 0 < s.canvas.width)
    (hh : 0 < s.canvas.height) :
    clearCanvas cfg confirmar answer s = Outcome.ok
      { isDrawing := s.isDrawing
        tool := s.tool
        color := s.color
        size := s.size
        history := (if s.history.length ≥ cfg.maxHistory then s.history.tail else s.history) ++
          [ImageData.mk s.canvas.width s.canvas.height s.canvas.data]
        canvas := ⟨s.canvas.width, s.canvas.height,
          uniform (s.canvas.width * s.canvas.height) 255 255 255 255⟩
        ctx := s.ctx ++ [CtxCall.fillStyle "#ffffff"] } := by
  unfold clearCanvas
  rw [if_pos hconfirmed, saveState_eq cfg s hw hh]
  rfl

theorem resizeCanvas_eq (cfg : Config) (width height : Nat) (s : State) (hw : 0 < width)
    (hh : 0 < height) :
    resizeCanvas cfg width height s = Outcome.ok
      { isDrawing := s.isDrawing
        tool := s.tool
        color := s.color
        size := s.size
        history := []
        canvas := ⟨width, height, uniform (width * height) 255 255 255 255⟩
        ctx := [CtxCall.fillStyle "#ffffff"] } := by
  unfold resizeCanvas
  simp only
  rw [clearCanvas_eq cfg false false _ rfl hw hh]
  rfl

theorem resizeCanvas_zero_width (cfg : Config) (height : Nat) (s : State) :
    resizeCanvas cfg 0 height s = Outcome.threw
      { s with
        history := if s.history.length ≥ cfg.maxHistory then s.history.tail else s.history
        canvas := ⟨0, height, []⟩
        ctx := [] } := by
  unfold resizeCanvas clearCanvas saveState getImageData
  by_cases hfull : s.history.length ≥ cfg.maxHistory
  · simp [hfull, Outcome.andThen]
  · simp [hfull, Outcome.andThen]

/-- When the new width and height are positive, `resizeCanvas` returns normally, whatever the
prior state, with an empty history and a bitmap in which every pixel is opaque white,
although the `clearCanvas(false)` it goes through first pushes a snapshot (of the freshly
reset, transparent bitmap). -/
theorem resizeCanvas_positive (cfg : Config) (width height : Nat) (s : State) (hw : 0 < width)
    (hh : 0 < height) :
    (∃ s1, resizeCanvas cfg width height s = Outcome.ok s1 ∧ s1.history = [] ∧
      s1.canvas = ⟨width, height, uniform (width * height) 255 255 255 255⟩ ∧
      ∀ x y, inBounds width height x y → getPixel width s1.canvas.data x y =
        ⟨Val.num 255, Val.num 255, Val.num 255, Val.num 255⟩) ∧
    ∃ s0, clearCanvas cfg false false
        { s with canvas := ⟨width, height, uniform (width * height) 0 0 0 0⟩, ctx := [] } =
          Outcome.ok s0 ∧
      s0.history.getLast? = some ⟨width, height, uniform (width * height) 0 0 0 0⟩ := by
  refine ⟨⟨_, resizeCanvas_eq cfg width height s hw hh, rfl, rfl, fun x y hin => ?_⟩,
    ⟨_, clearCanvas_eq cfg false false _ rfl hw hh, ?_⟩⟩
  · exact getPixel_uniform hin 255 255 255 255
  · simp

/-- A resize to 2×1 of a session with a full history of twenty snapshots. -/
theorem resizeCanvas_positive_example :
    resizeCanvas CONFIG 2 1 { initial ⟨1, 1, [1, 2, 3, 4]⟩ with
        history := List.replicate 20 ⟨1, 1, [0, 0, 0, 0]⟩ } =
      Outcome.ok { initial ⟨2, 1, [255, 255, 255, 255, 255, 255, 255, 255]⟩ with
        ctx := [CtxCall.fillStyle "#ffffff"] } ∧
    ((∃ s1, resizeCanvas CONFIG 2 1 { initial ⟨1, 1, [1, 2, 3, 4]⟩ with
          history := List.replicate 20 ⟨1, 1, [0, 0, 0, 0]⟩ } = Outcome.ok s1 ∧
        s1.history = [] ∧ s1.canvas = ⟨2, 1, uniform (2 * 1) 255 255 255 255⟩ ∧
        ∀ x y, inBounds 2 1 x y → getPixel 2 s1.canvas.data x y =
          ⟨Val.num 255, Val.num 255, Val.num 255, Val.num 255⟩) ∧
      ∃ s0, clearCanvas CONFIG false false
          { ({ initial ⟨1, 1, [1, 2, 3, 4]⟩ with
                history := List.replicate 20 ⟨1, 1, [0, 0, 0, 0]⟩ } : State) with
            canvas := ⟨2, 1, uniform (2 * 1) 0 0 0 0⟩, ctx := [] } = Outcome.ok s0 ∧
        s0.history.getLast? = some ⟨2, 1, uniform (2 * 1) 0 0 0 0⟩) :=
  ⟨by decide, resizeCanvas_positive CONFIG 2 1 _ (by decide) (by decide)⟩

/-- C11: `resizeCanvas` does not leave an empty history for every prior state. When the
canvas gets width 0 (`wrapper.clientWidth = 40`) and height 1, with twenty snapshots in the
history, `clearCanvas(false)` calls `saveState`, which drops the oldest snapshot and then
fails in `getImageData`; the assignment `state.history = []` is never reached, the call
ends with that exception and nineteen snapshots are still in the history. -/
theorem resizeCanvas_zero_width_keeps_history :
    resizeCanvas CONFIG 0 1 { initial ⟨1, 1, [1, 2, 3, 255]⟩ with
        history := List.replicate 20 ⟨1, 1, [0, 0, 0, 255]⟩ } =
      Outcome.threw { initial ⟨0, 1, []⟩ with
        history := List.replicate 19 ⟨1, 1, [0, 0, 0, 255]⟩ } ∧
    ¬ ∃ s1, resizeCanvas CONFIG 0 1 { initial ⟨1, 1, [1, 2, 3, 255]⟩ with
        history := List.replicate 20 ⟨1, 1, [0, 0, 0, 255]⟩ } = Outcome.ok s1 ∧
      s1.history = [] := by
  have hrun : resizeCanvas CONFIG 0 1 { initial ⟨1, 1, [1, 2, 3, 255]⟩ with
        history := List.replicate 20 ⟨1, 1, [0, 0, 0, 255]⟩ } =
      Outcome.threw { initial ⟨0, 1, []⟩ with
        history := List.replicate 19 ⟨1, 1, [0, 0, 0, 255]⟩ } := by decide
  refine ⟨hrun, ?_⟩
  rintro ⟨s1, hok, _⟩
  rw [hrun] at hok
  exact Outcome.noConfusion hok

/-- C12: a confirmed `clearCanvas` on a canvas with bitmap `b` pushes exactly one snapshot,
equal to `b` (after dropping the oldest one when the history was full), and sets every
pixel to opaque white; an `undo` right afterwards restores the canvas to `b` and takes that
snapshot off again. -/
theorem clearCanvas_undoable (cfg : Config) (confirmar answer : Bool) (s : State)
    (hconfirmed : (!confirmar || answer) = true) (hw : 0 < s.canvas.width)
    (hh : 0 < s.canvas.height) (hsized : s.canvas.wellSized) :
    ∃ s1, clearCanvas cfg confirmar answer s = Outcome.ok s1 ∧
      s1.history = (if s.history.length ≥ cfg.maxHistory then s.history.tail else s.history) ++
        [ImageData.mk s.canvas.width s.canvas.height s.canvas.data] ∧
      s1.canvas = ⟨s.canvas.width, s.canvas.height,
        uniform (s.canvas.width * s.canvas.height) 255 255 255 255⟩ ∧
      (∀ x y, inBounds s.canvas.width s.canvas.height x y →
        getPixel s.canvas.width s1.canvas.data x y =
          ⟨Val.num 255, Val.num 255, Val.num 255, Val.num 255⟩) ∧
      ∃ s2, undo s1 = Outcome.ok s2 ∧ s2.canvas = s.canvas ∧
        s2.history = (if s.history.length ≥ cfg.maxHistory then s.history.tail else s.history) := by
  refine ⟨_, clearCanvas_eq cfg confirmar answer s hconfirmed hw hh, rfl, rfl,
    fun x y hin => getPixel_uniform hin 255 255 255 255, ?_⟩
  refine ⟨_, undo_append _ _ (ImageData.mk s.canvas.width s.canvas.height s.canvas.data) rfl,
    ?_, rfl⟩
  have hwhite : Canvas.wellSized ⟨s.canvas.width, s.canvas.height,
      uniform (s.canvas.width * s.canvas.height) 255 255 255 255⟩ := by
    simp only [Canvas.wellSized, uniform_length]
  rw [putImageData_same_size _
    (ImageData.mk s.canvas.width s.canvas.height s.canvas.data) hwhite rfl rfl hsized]

/-- Instance of C12: the confirmed clear of a 2×1 drawing and the undo after it. -/
theorem clearCanvas_undoable_witness :
    clearCanvas CONFIG true true (initial ⟨2, 1, [1, 2, 3, 4, 5, 6, 7, 8]⟩) =
      Outcome.ok { initial ⟨2, 1, [255, 255, 255, 255, 255, 255, 255, 255]⟩ with
        history := [⟨2, 1, [1, 2, 3, 4, 5, 6, 7, 8]⟩], ctx := [CtxCall.fillStyle "#ffffff"] } ∧
    clearCanvas CONFIG true false (initial ⟨2, 1, [1, 2, 3, 4, 5, 6, 7, 8]⟩) =
      Outcome.ok (initial ⟨2, 1, [1, 2, 3, 4, 5, 6, 7, 8]⟩) ∧
    ∃ s1, clearCanvas CONFIG true true (initial ⟨2, 1, [1, 2, 3, 4, 5, 6, 7, 8]⟩) =
        Outcome.ok s1 ∧
      s1.history = (if (initial ⟨2, 1, [1, 2, 3, 4, 5, 6, 7, 8]⟩).history.length ≥
          CONFIG.maxHistory then (initial ⟨2, 1, [1, 2, 3, 4, 5, 6, 7, 8]⟩).history.tail
        else (initial ⟨2, 1, [1, 2, 3, 4, 5, 6, 7, 8]⟩).history) ++
        [ImageData.mk 2 1 [1, 2, 3, 4, 5, 6, 7, 8]] ∧
      s1.canvas = ⟨2, 1, uniform (2 * 1) 255 255 255 255⟩ ∧
      (∀ x y, inBounds 2 1 x y → getPixel 2 s1.canvas.data x y =
          ⟨Val.num 255, Val.num 255, Val.num 255, Val.num 255⟩) ∧
      ∃ s2, undo s1 = Outcome.ok s2 ∧ s2.canvas = ⟨2, 1, [1, 2, 3, 4, 5, 6, 7, 8]⟩ ∧
        s2.history = (if (initial ⟨2, 1, [1, 2, 3, 4, 5, 6, 7, 8]⟩).history.length ≥
            CONFIG.maxHistory then (initial ⟨2, 1, [1, 2, 3, 4, 5, 6, 7, 8]⟩).history.tail
          else (initial ⟨2, 1, [1, 2, 3, 4, 5, 6, 7, 8]⟩).history) :=
  ⟨by decide, by decide,
    clearCanvas_undoable CONFIG true true (initial ⟨2, 1, [1, 2, 3, 4, 5, 6, 7, 8]⟩) rfl
      (by decide) (by decide) (by decide)⟩

/-! ## Bucket activation -/

theorem floodFill_returns {w h : Nat} {data : List Nat} {c : Color} (sx sy : Int)
    (hlen : data.length = w * h * 4) (hwf : c.wellFormed) (fuel : Nat)
    (hfuel : fillFuel w h ≤ fuel) :
    ∃ out, floodFill fuel w h data c sx sy = some out := by
  by_cases hin : inBounds w h sx sy
  · cases hb : colorsMatch (getPixel w data sx sy) c with
    | true => exact ⟨data, by simp [floodFill, hb]⟩
    | false =>
      obtain ⟨out, hrun, _⟩ := floodFill_run hlen hin hwf hb fuel hfuel
      exact ⟨out, hrun⟩
  · exact ⟨data, floodFill_oob data c hin fuel (by unfold fillFuel at hfuel; omega)⟩

theorem startDraw_bucket_eq (cfg : Config) (R : Rasterizer) (fuel : Nat) (x y : Int) (s : State)
    (htool : s.tool = Tool.bucket) (hw : 0 < s.canvas.width) (hh : 0 < s.canvas.height)
    (hsized : s.canvas.wellSized) :
    startDraw cfg R fuel x y s =
      match floodFill fuel s.canvas.width s.canvas.height s.canvas.data (hexToRgba s.color) x y with
      | none => Outcome.hang
      | some out => Outcome.ok
          { isDrawing := s.isDrawing
            tool := s.tool
            color := s.color
            size := s.size
            history :=
              (if s.history.length ≥ cfg.maxHistory then s.history.tail else s.history) ++
                [ImageData.mk s.canvas.width s.canvas.height s.canvas.data]
            canvas := ⟨s.canvas.width, s.canvas.height, out⟩
            ctx := s.ctx } := by
  unfold startDraw
  rw [if_pos htool, saveState_eq cfg s hw hh]
  simp only [Outcome.andThen]
  refine (floodFillCanvas_eq fuel x y
    { s with history :=
        (if s.history.length ≥ cfg.maxHistory then s.history.tail else s.history) ++
          [ImageData.mk s.canvas.width s.canvas.height s.canvas.data] } hw hh hsized).trans ?_
  cases floodFill fuel s.canvas.width s.canvas.height s.canvas.data (hexToRgba s.color) x y with
  | none => rfl
  | some out => rfl

/-- C13: with the bucket selected, on a well-sized canvas with positive dimensions,
`startDraw` is one `saveState` followed by one `floodFill` from the seed with the current
colour: the snapshot of the bitmap before the fill is pushed whether or not the fill changes
a pixel, the bitmap becomes the result of the fill, and `isDrawing` is left as it was. For a
well-formed colour and `4 * w * h + 2` fuel the call returns. -/
theorem startDraw_bucket (cfg : Config) (R : Rasterizer) (fuel : Nat) (x y : Int) (s : State)
    (htool : s.tool = Tool.bucket) (hw : 0 < s.canvas.width) (hh : 0 < s.canvas.height)
    (hsized : s.canvas.wellSized) (hwf : (hexToRgba s.color).wellFormed)
    (hfuel : 4 * s.canvas.width * s.canvas.height + 2 ≤ fuel) :
    ∃ out, floodFill fuel s.canvas.width s.canvas.height s.canvas.data (hexToRgba s.color) x y =
        some out ∧
      startDraw cfg R fuel x y s = Outcome.ok
        { isDrawing := s.isDrawing
          tool := s.tool
          color := s.color
          size := s.size
          history :=
            (if s.history.length ≥ cfg.maxHistory then s.history.tail else s.history) ++
              [ImageData.mk s.canvas.width s.canvas.height s.canvas.data]
          canvas := ⟨s.canvas.width, s.canvas.height, out⟩
          ctx := s.ctx } := by
  obtain ⟨out, hout⟩ := floodFill_returns (c := hexToRgba s.color) x y hsized hwf fuel
    (by unfold fillFuel; rw [← Nat.mul_assoc]; exact hfuel)
  refine ⟨out, hout, ?_⟩
  rw [startDraw_bucket_eq cfg R fuel x y s htool hw hh hsized, hout]

set_option maxRecDepth 100000 in
/-- Instances of C13 on a 2×1 canvas: a fill from `(0, 0)` that repaints the white pixel,
and a fill from `(1, 0)` of a pixel that already has the fill colour, which changes no
pixel but still pushes the snapshot. -/
theorem startDraw_bucket_witness :
    startDraw CONFIG noInk 10 0 0
        { initial ⟨2, 1, [255, 255, 255, 255, 17, 17, 27, 255]⟩ with tool := Tool.bucket } =
      Outcome.ok { initial ⟨2, 1, [17, 17, 27, 255, 17, 17, 27, 255]⟩ with
        tool := Tool.bucket
        history := [⟨2, 1, [255, 255, 255, 255, 17, 17, 27, 255]⟩] } ∧
    startDraw CONFIG noInk 10 1 0
        { initial ⟨2, 1, [255, 255, 255, 255, 17, 17, 27, 255]⟩ with tool := Tool.bucket } =
      Outcome.ok { initial ⟨2, 1, [255, 255, 255, 255, 17, 17, 27, 255]⟩ with
        tool := Tool.bucket
        history := [⟨2, 1, [255, 255, 255, 255, 17, 17, 27, 255]⟩] } ∧
    ∃ out, floodFill 10 2 1 [255, 255, 255, 255, 17, 17, 27, 255] (hexToRgba "#11111b") 0 0 =
        some out ∧
      startDraw CONFIG noInk 10 0 0
          { initial ⟨2, 1, [255, 255, 255, 255, 17, 17, 27, 255]⟩ with tool := Tool.bucket } =
        Outcome.ok
          { isDrawing := false
            tool := Tool.bucket
            color := "#11111b"
            size := Val.num 5
            history := (if (0 : Nat) ≥ CONFIG.maxHistory then [] else []) ++
              [ImageData.mk 2 1 [255, 255, 255, 255, 17, 17, 27, 255]]
            canvas := ⟨2, 1, out⟩
            ctx := [] } :=
  ⟨by decide, by decide,
    startDraw_bucket CONFIG noInk 10 0 0
      { initial ⟨2, 1, [255, 255, 255, 255, 17, 17, 27, 255]⟩ with tool := Tool.bucket } rfl
      (by decide) (by decide) (by decide)
      ⟨⟨17, by decide, by decide⟩, ⟨17, by decide, by decide⟩, ⟨27, by decide, by decide⟩⟩
      (by decide)⟩

/-! ## Strokes -/

theorem run_append (cfg : Config) (R : Rasterizer) (fuel : Nat) :
    ∀ (ops1 ops2 : List Op) (s : State),
      run cfg R fuel (ops1 ++ ops2) s = (run cfg R fuel ops1 s).bind (run cfg R fuel ops2) := by
  intro ops1
  induction ops1 with
  | nil => intro ops2 s; rfl
  | cons op ops ih =>
    intro ops2 s
    simp only [List.cons_append, run]
    cases step cfg R fuel op s with
    | ok s1 => exact ih ops2 s1
    | threw s1 => exact ih ops2 s1
    | hang => rfl

theorem startDraw_stroke_eq (cfg : Config) (R : Rasterizer) (fuel : Nat) (x y : Int) (s : State)
    (htool : s.tool ≠ Tool.bucket) (hw : 0 < s.canvas.width) (hh : 0 < s.canvas.height) :
    ∃ s1, startDraw cfg R fuel x y s = Outcome.ok s1 ∧
      s1.history = (if s.history.length ≥ cfg.maxHistory then s.history.tail else s.history) ++
        [ImageData.mk s.canvas.width s.canvas.height s.canvas.data] ∧
      s1.isDrawing = true ∧ s1.canvas.width = s.canvas.width ∧
      s1.canvas.height = s.canvas.height ∧ s1.canvas.data.length = s.canvas.data.length := by
  unfold startDraw
  rw [if_neg htool, saveState_eq cfg s hw hh]
  exact ⟨_, rfl, rfl, rfl, rfl, rfl, R.stroke_length _ _⟩

theorem draw_spec (R : Rasterizer) (x y : ℚ) (s : State) :
    ∃ s1, draw R x y s = Outcome.ok s1 ∧ s1.history = s.history ∧
      s1.isDrawing = s.isDrawing ∧ s1.canvas.width = s.canvas.width ∧
      s1.canvas.height = s.canvas.height ∧ s1.canvas.data.length = s.canvas.data.length ∧
      (s.isDrawing = false → s1 = s) := by
  unfold draw
  by_cases hd : s.isDrawing = true
  · rw [if_neg (by simp [hd])]
    exact ⟨_, rfl, rfl, rfl, rfl, rfl, R.stroke_length _ _, fun h => absurd hd (by simp [h])⟩
  · rw [if_pos (by simpa using hd)]
    exact ⟨s, rfl, rfl, rfl, rfl, rfl, rfl, fun _ => rfl⟩

theorem stopDraw_spec (s : State) :
    ∃ s1, stopDraw s = Outcome.ok s1 ∧ s1.history = s.history ∧ s1.isDrawing = false ∧
      s1.canvas = s.canvas := by
  unfold stopDraw
  by_cases hd : s.isDrawing = true
  · rw [if_pos hd]
    exact ⟨_, rfl, rfl, rfl, rfl⟩
  · rw [if_neg hd]
    exact ⟨s, rfl, rfl, by simpa using hd, rfl⟩

theorem run_draws (cfg : Config) (R : Rasterizer) (fuel : Nat) :
    ∀ (pts : List (ℚ × ℚ)) (s : State),
      ∃ s1, run cfg R fuel (pts.map fun p => Op.draw p.1 p.2) s = some s1 ∧
        s1.history = s.history ∧ s1.canvas.width = s.canvas.width ∧
        s1.canvas.height = s.canvas.height ∧
        s1.canvas.data.length = s.canvas.data.length := by
  intro pts
  induction pts with
  | nil => intro s; exact ⟨s, rfl, rfl, rfl, rfl, rfl⟩
  | cons p pts ih =>
    intro s
    obtain ⟨s1, hdraw, hh1, _, hw1, hhe1, hl1, _⟩ := draw_spec R p.1 p.2 s
    obtain ⟨s2, hrun, hh2, hw2, hhe2, hl2⟩ := ih s1
    refine ⟨s2, ?_, hh2.trans hh1, hw2.trans hw1, hhe2.trans hhe1, hl2.trans hl1⟩
    simp only [List.map_cons, run, step, hdraw]
    exact hrun

/-- C14: a stroke is one undo unit. With the brush or the eraser, on a well-sized canvas with
positive dimensions, `startDraw` pushes exactly one snapshot, of the bitmap before the
stroke, and sets `isDrawing`; every `draw` and `stopDraw` returns with the history unchanged,
and `draw` changes nothing at all while `isDrawing` is false; so after `startDraw`, any
number of `draw` calls, `stopDraw` and one `undo` the canvas is the one from before the
stroke and the snapshot of the stroke is off the history again. -/
theorem stroke_is_one_undo_unit (cfg : Config) (R : Rasterizer) (fuel : Nat) (x y : Int)
    (pts : List (ℚ × ℚ)) (s : State) (htool : s.tool = Tool.brush ∨ s.tool = Tool.eraser)
    (hw : 0 < s.canvas.width) (hh : 0 < s.canvas.height) (hsized : s.canvas.wellSized) :
    (∃ s1, startDraw cfg R fuel x y s = Outcome.ok s1 ∧
      s1.history = (if s.history.length ≥ cfg.maxHistory then s.history.tail else s.history) ++
        [ImageData.mk s.canvas.width s.canvas.height s.canvas.data] ∧
      s1.isDrawing = true) ∧
    (∀ (t : State) (px py : ℚ), ∃ t1, draw R px py t = Outcome.ok t1 ∧
      t1.history = t.history ∧ (t.isDrawing = false → t1 = t)) ∧
    (∀ t : State, ∃ t1, stopDraw t = Outcome.ok t1 ∧ t1.history = t.history) ∧
    ∃ s2, run cfg R fuel
        (Op.startDraw x y :: ((pts.map fun p => Op.draw p.1 p.2) ++ [Op.stopDraw, Op.undo])) s =
          some s2 ∧
      s2.canvas = s.canvas ∧
      s2.history = (if s.history.length ≥ cfg.maxHistory then s.history.tail else s.history) ∧
      s2.isDrawing = false := by
  have hnb : s.tool ≠ Tool.bucket := by
    rcases htool with h | h <;> rw [h] <;> decide
  obtain ⟨s1, hstart, hhist1, hdraw1, hw1, hh1, hl1⟩ :=
    startDraw_stroke_eq cfg R fuel x y s hnb hw hh
  refine ⟨⟨s1, hstart, hhist1, hdraw1⟩, fun t px py => ?_, fun t => ?_, ?_⟩
  · obtain ⟨t1, h1, h2, _, _, _, _, h3⟩ := draw_spec R px py t
    exact ⟨t1, h1, h2, h3⟩
  · obtain ⟨t1, h1, h2, _⟩ := stopDraw_spec t
    exact ⟨t1, h1, h2⟩
  · obtain ⟨sd, hrun, hhistd, hwd, hhd, hld⟩ := run_draws cfg R fuel pts s1
    obtain ⟨se, hstop, hhiste, hdrawe, hcanvase⟩ := stopDraw_spec sd
    have hhist : se.history =
        (if s.history.length ≥ cfg.maxHistory then s.history.tail else s.history) ++
          [ImageData.mk s.canvas.width s.canvas.height s.canvas.data] := by
      rw [hhiste, hhistd, hhist1]
    have hsz : se.canvas.wellSized := by
      simp only [Canvas.wellSized]
      rw [hcanvase, hld, hl1, hwd, hhd, hw1, hh1]
      exact hsized
    have hwe : s.canvas.width = se.canvas.width := by rw [hcanvase, hwd, hw1]
    have hhe : s.canvas.height = se.canvas.height := by rw [hcanvase, hhd, hh1]
    have hundo := undo_append se _ _ hhist
    rw [putImageData_same_size se.canvas
      (ImageData.mk s.canvas.width s.canvas.height s.canvas.data) hsz hwe hhe hsized] at hundo
    refine ⟨{ se with
      history := if s.history.length ≥ cfg.maxHistory then s.history.tail else s.history
      canvas := { se.canvas with data := s.canvas.data } }, ?_, ?_, rfl, hdrawe⟩
    · simp only [run, step, hstart]
      rw [run_append, hrun]
      simp only [Option.bind, run, step, hstop, hundo]
    · cases hc : s.canvas with
      | mk cw ch cd =>
        rw [hc] at hwe hhe
        simp only at hwe hhe
        simp only [Canvas.mk.injEq]
        exact ⟨hwe.symm, hhe.symm, trivial⟩

set_option maxRecDepth 100000 in
/-- Instance of C14 with a rasterizer that overwrites every byte: a stroke of the brush with
two `draw` calls on a 1×1 canvas changes the bitmap and pushes one snapshot; the `undo`
brings the bitmap back; a `draw` outside a stroke changes nothing. -/
theorem stroke_is_one_undo_unit_witness :
    (run CONFIG inkAll 0 [Op.startDraw 0 0, Op.draw (1 / 2) 0, Op.draw 1 1, Op.stopDraw]
        (initial ⟨1, 1, [9, 8, 7, 255]⟩)).map (fun t => (t.canvas, t.history, t.isDrawing)) =
      some (⟨1, 1, [0, 0, 0, 0]⟩, [⟨1, 1, [9, 8, 7, 255]⟩], false) ∧
    draw inkAll (1 / 2) 0 (initial ⟨1, 1, [9, 8, 7, 255]⟩) =
      Outcome.ok (initial ⟨1, 1, [9, 8, 7, 255]⟩) ∧
    ((∃ s1, startDraw CONFIG inkAll 0 0 0 (initial ⟨1, 1, [9, 8, 7, 255]⟩) = Outcome.ok s1 ∧
        s1.history = (if (initial ⟨1, 1, [9, 8, 7, 255]⟩).history.length ≥ CONFIG.maxHistory
          then (initial ⟨1, 1, [9, 8, 7, 255]⟩).history.tail
          else (initial ⟨1, 1, [9, 8, 7, 255]⟩).history) ++
          [ImageData.mk 1 1 [9, 8, 7, 255]] ∧
        s1.isDrawing = true) ∧
      (∀ (t : State) (px py : ℚ), ∃ t1, draw inkAll px py t = Outcome.ok t1 ∧
        t1.history = t.history ∧ (t.isDrawing = false → t1 = t)) ∧
      (∀ t : State, ∃ t1, stopDraw t = Outcome.ok t1 ∧ t1.history = t.history) ∧
      ∃ s2, run CONFIG inkAll 0
          (Op.startDraw 0 0 ::
            (([((1 : ℚ) / 2, (0 : ℚ)), (1, 1)].map fun p => Op.draw p.1 p.2) ++
              [Op.stopDraw, Op.undo])) (initial ⟨1, 1, [9, 8, 7, 255]⟩) = some s2 ∧
        s2.canvas = ⟨1, 1, [9, 8, 7, 255]⟩ ∧
        s2.history = (if (initial ⟨1, 1, [9, 8, 7, 255]⟩).history.length ≥ CONFIG.maxHistory
          then (initial ⟨1, 1, [9, 8, 7, 255]⟩).history.tail
          else (initial ⟨1, 1, [9, 8, 7, 255]⟩).history) ∧
        s2.isDrawing = false) :=
  ⟨by decide, by decide,
    stroke_is_one_undo_unit CONFIG inkAll 0 0 0 [((1 : ℚ) / 2, (0 : ℚ)), (1, 1)]
      (initial ⟨1, 1, [9, 8, 7, 255]⟩) (Or.inl rfl) (by decide) (by decide) (by decide)⟩

/-! ## Colour strings -/

set_option maxRecDepth 1000000 in
theorem parseInt_hexPair_table :
    ∀ u1 < 103, ∀ u2 < 103, (hexDigit u1).isSome = true → (hexDigit u2).isSome = true →
      parseInt [u1, u2] 16 =
        Val.num ((((hexDigit u1).getD 0) * 16 + (hexDigit u2).getD 0 : Nat) : Int) := by
  decide

theorem hexDigit_lt {u d : Nat} (h : hexDigit u = some d) : u < 103 ∧ d < 16 := by
  unfold hexDigit at h
  split at h
  · simp only [Option.some.injEq] at h; omega
  · split at h
    · simp only [Option.some.injEq] at h; omega
    · split at h
      · simp only [Option.some.injEq] at h; omega
      · exact absurd h (by simp)

theorem parseInt_hexPair {u1 u2 d1 d2 : Nat} (h1 : hexDigit u1 = some d1)
    (h2 : hexDigit u2 = some d2) :
    parseInt [u1, u2] 16 = Val.num ((d1 * 16 + d2 : Nat) : Int) := by
  have := parseInt_hexPair_table u1 (hexDigit_lt h1).1 u2 (hexDigit_lt h2).1
    (by rw [h1]; rfl) (by rw [h2]; rfl)
  rw [this, h1, h2]
  rfl

theorem utf16_colour (hex : String) (c1 c2 c3 c4 c5 c6 : Char) (d1 d2 d3 d4 d5 d6 : Nat)
    (hshape : hex.toList = [Char.ofNat 35, c1, c2, c3, c4, c5, c6])
    (h1 : hexVal c1 = some d1) (h2 : hexVal c2 = some d2) (h3 : hexVal c3 = some d3)
    (h4 : hexVal c4 = some d4) (h5 : hexVal c5 = some d5) (h6 : hexVal c6 = some d6) :
    utf16 hex = [35, c1.toNat, c2.toNat, c3.toNat, c4.toNat, c5.toNat, c6.toNat] := by
  have b1 := (hexDigit_lt h1).1
  have b2 := (hexDigit_lt h2).1
  have b3 := (hexDigit_lt h3).1
  have b4 := (hexDigit_lt h4).1
  have b5 := (hexDigit_lt h5).1
  have b6 := (hexDigit_lt h6).1
  have e1 : c1.toNat < 65536 := by omega
  have e2 : c2.toNat < 65536 := by omega
  have e3 : c3.toNat < 65536 := by omega
  have e4 : c4.toNat < 65536 := by omega
  have e5 : c5.toNat < 65536 := by omega
  have e6 : c6.toNat < 65536 := by omega
  have e0 : (Char.ofNat 35).toNat = 35 := by decide
  unfold utf16
  rw [hshape]
  simp [List.flatMap, e0, e1, e2, e3, e4, e5, e6]

/-- C16: for a colour string made of the number sign and six hexadecimal digits, of either
case, `hexToRgba` returns `[r, g, b, 255]` where `r`, `g`, `b` are the values of the three
two-digit pairs, each in `0..255`; and the alpha is 255 for every input string. -/
theorem hexToRgba_wellFormed (hex : String) (c1 c2 c3 c4 c5 c6 : Char)
    (d1 d2 d3 d4 d5 d6 : Nat)
    (hshape : hex.toList = [Char.ofNat 35, c1, c2, c3, c4, c5, c6])
    (h1 : hexVal c1 = some d1) (h2 : hexVal c2 = some d2) (h3 : hexVal c3 = some d3)
    (h4 : hexVal c4 = some d4) (h5 : hexVal c5 = some d5) (h6 : hexVal c6 = some d6) :
    hexToRgba hex = ⟨Val.num ((d1 * 16 + d2 : Nat) : Int), Val.num ((d3 * 16 + d4 : Nat) : Int),
      Val.num ((d5 * 16 + d6 : Nat) : Int), Val.num 255⟩ ∧
    d1 * 16 + d2 ≤ 255 ∧ d3 * 16 + d4 ≤ 255 ∧ d5 * 16 + d6 ≤ 255 ∧
    (hexToRgba hex).wellFormed ∧
    ∀ other : String, (hexToRgba other).a = Val.num 255 := by
  have hu := utf16_colour hex c1 c2 c3 c4 c5 c6 d1 d2 d3 d4 d5 d6 hshape h1 h2 h3 h4 h5 h6
  have hr : parseInt (slice (utf16 hex) 1 3) 16 = Val.num ((d1 * 16 + d2 : Nat) : Int) := by
    rw [hu]; exact parseInt_hexPair h1 h2
  have hg : parseInt (slice (utf16 hex) 3 5) 16 = Val.num ((d3 * 16 + d4 : Nat) : Int) := by
    rw [hu]; exact parseInt_hexPair h3 h4
  have hb : parseInt (slice (utf16 hex) 5 7) 16 = Val.num ((d5 * 16 + d6 : Nat) : Int) := by
    rw [hu]; exact parseInt_hexPair h5 h6
  have l1 := (hexDigit_lt h1).2
  have l2 := (hexDigit_lt h2).2
  have l3 := (hexDigit_lt h3).2
  have l4 := (hexDigit_lt h4).2
  have l5 := (hexDigit_lt h5).2
  have l6 := (hexDigit_lt h6).2
  have heq : hexToRgba hex = ⟨Val.num ((d1 * 16 + d2 : Nat) : Int),
      Val.num ((d3 * 16 + d4 : Nat) : Int), Val.num ((d5 * 16 + d6 : Nat) : Int),
      Val.num 255⟩ := by
    simp only [hexToRgba, hr, hg, hb]
  refine ⟨heq, by omega, by omega, by omega, ?_, fun other => rfl⟩
  rw [heq]
  exact ⟨⟨_, rfl, by omega⟩, ⟨_, rfl, by omega⟩, ⟨_, rfl, by omega⟩⟩

/-- Instances of C16: a palette colour in lower case and the same colour in upper case. -/
theorem hexToRgba_wellFormed_witness :
    hexToRgba "#f38ba8" = ⟨Val.num 243, Val.num 139, Val.num 168, Val.num 255⟩ ∧
    hexToRgba "#F38BA8" = ⟨Val.num 243, Val.num 139, Val.num 168, Val.num 255⟩ ∧
    (hexToRgba "#F38bA8" = ⟨Val.num ((15 * 16 + 3 : Nat) : Int),
        Val.num ((8 * 16 + 11 : Nat) : Int), Val.num ((10 * 16 + 8 : Nat) : Int), Val.num 255⟩ ∧
      15 * 16 + 3 ≤ 255 ∧ 8 * 16 + 11 ≤ 255 ∧ 10 * 16 + 8 ≤ 255 ∧
      (hexToRgba "#F38bA8").wellFormed ∧
      ∀ other : String, (hexToRgba other).a = Val.num 255) :=
  ⟨by decide, by decide,
    hexToRgba_wellFormed "#F38bA8" (Char.ofNat 70) (Char.ofNat 51) (Char.ofNat 56)
      (Char.ofNat 98) (Char.ofNat 65) (Char.ofNat 56) 15 3 8 11 10 8 (by decide) (by decide)
      (by decide) (by decide) (by decide) (by decide) (by decide)⟩

/-! ## Filling twice -/

theorem colorsMatch_painted {c : Color} (hwf : c.wellFormed) :
    colorsMatch (painted c) c = true := by
  rw [painted_of_wellFormed hwf]
  obtain ⟨⟨r, hr, _⟩, ⟨g, hg, _⟩, ⟨b, hb, _⟩⟩ := hwf
  simp [colorsMatch, Val.strictEq, hr, hg, hb]

/-- C18: `floodFill` is idempotent. For every `w`×`h` bitmap, every integer seed and every
well-formed fill colour, with `4 * w * h + 2` fuel the fill returns a bitmap, and the same
fill applied to that bitmap returns it unchanged. -/
theorem floodFill_idempotent (w h : Nat) (data : List Nat) (fillColor : Color)
    (startX startY : Int) (fuel : Nat) (hlen : data.length = w * h * 4)
    (hwf : fillColor.wellFormed) (hfuel : 4 * w * h + 2 ≤ fuel) :
    ∃ out, floodFill fuel w h data fillColor startX startY = some out ∧
      floodFill fuel w h out fillColor startX startY = some out := by
  have hfuel' : fillFuel w h ≤ fuel := by
    unfold fillFuel; rw [← Nat.mul_assoc]; exact hfuel
  by_cases hin : inBounds w h startX startY
  · cases hb : colorsMatch (getPixel w data startX startY) fillColor with
    | true =>
      have hsame : floodFill fuel w h data fillColor startX startY = some data := by
        simp [floodFill, hb]
      exact ⟨data, hsame, hsame⟩
    | false =>
      obtain ⟨out, hrun, hinv⟩ := floodFill_run hlen hin hwf hb fuel hfuel'
      refine ⟨out, hrun, ?_⟩
      have hseed : getPixel w out startX startY = painted fillColor :=
        hinv.region_painted (Region.seed hin)
      have hmatch : colorsMatch (getPixel w out startX startY) fillColor = true := by
        rw [hseed]; exact colorsMatch_painted hwf
      simp [floodFill, hmatch]
  · have hnoop := floodFill_oob data fillColor hin fuel (by omega)
    exact ⟨data, hnoop, hnoop⟩

set_option maxRecDepth 100000 in
/-- Instances of C18: the black-pixel scenario filled twice with blue from `(0, 0)`, and a
fill from a seed off the canvas. -/
theorem floodFill_idempotent_witness :
    (floodFill 66 4 4 whiteBlack4 blue 0 0).bind (fun out => floodFill 66 4 4 out blue 0 0) =
      floodFill 66 4 4 whiteBlack4 blue 0 0 ∧
    (floodFill 66 4 4 whiteBlack4 blue 4 0).bind (fun out => floodFill 66 4 4 out blue 4 0) =
      some whiteBlack4 ∧
    ∃ out, floodFill 66 4 4 whiteBlack4 blue 0 0 = some out ∧
      floodFill 66 4 4 out blue 0 0 = some out :=
  ⟨by decide, by decide,
    floodFill_idempotent 4 4 whiteBlack4 blue 0 0 66 (by decide)
      ⟨⟨0, rfl, by decide⟩, ⟨0, rfl, by decide⟩, ⟨255, rfl, by decide⟩⟩ (by decide)⟩

/-! ## Traversal order -/

theorem floodLoopWith_stack (w h : Nat) (target c : Color) :
    ∀ (fuel : Nat) (data : List Nat) (stack : List (Int × Int)),
      floodLoopWith stackSched w h target c fuel data stack =
        floodLoop w h target c fuel data stack := by
  intro fuel
  induction fuel with
  | zero => intro data stack; rfl
  | succ fuel ih =>
    intro data stack
    cases stack with
    | nil => rfl
    | cons top rest =>
      obtain ⟨x, y⟩ := top
      simp only [floodLoopWith, floodLoop, ih]
      rfl

theorem floodFillWith_stack (fuel w h : Nat) (data : List Nat) (c : Color) (sx sy : Int) :
    floodFillWith stackSched fuel w h data c sx sy = floodFill fuel w h data c sx sy := by
  simp only [floodFillWith, floodFill, floodLoopWith_stack]

theorem FillInv.congr {w h : Nat} {orig : List Nat} {sx sy : Int} {c : Color}
    {data : List Nat} {stack stack' : List (Int × Int)}
    (hinv : FillInv w h orig sx sy c data stack)
    (hmem : ∀ p, p ∈ stack' ↔ p ∈ stack) : FillInv w h orig sx sy c data stack' where
  len := hinv.len
  frame := hinv.frame
  stackRegion := fun x y hxy => hinv.stackRegion x y ((hmem (x, y)).mp hxy)
  seedDone := hinv.seedDone.imp (fun hs => (hmem (sx, sy)).mpr hs) id
  closed := fun x y x' y' hr hp hadj hr' =>
    (hinv.closed x y x' y' hr hp hadj hr').imp id (fun hs => (hmem (x', y')).mpr hs)

theorem mem_sched_iff {sched : Int → Int → List (Int × Int) → List (Int × Int)}
    (hre : Reorders sched) (x y : Int) (rest : List (Int × Int)) (p : Int × Int) :
    p ∈ sched x y rest ↔
      p ∈ (x, y - 1) :: (x, y + 1) :: (x - 1, y) :: (x + 1, y) :: rest := by
  rw [(hre x y rest).mem_iff]
  simp only [neighbours, List.cons_append, List.nil_append, List.mem_cons]
  tauto

theorem length_sched {sched : Int → Int → List (Int × Int) → List (Int × Int)}
    (hre : Reorders sched) (x y : Int) (rest : List (Int × Int)) :
    (sched x y rest).length = rest.length + 4 := by
  rw [(hre x y rest).length_eq]
  simp [neighbours]

theorem floodLoopWith_spec {sched : Int → Int → List (Int × Int) → List (Int × Int)}
    (hre : Reorders sched) {w h : Nat} {orig : List Nat} {sx sy : Int} {c : Color}
    (hin : inBounds w h sx sy) (hpt : painted c ≠ getPixel w orig sx sy) :
    ∀ (fuel : Nat) (data : List Nat) (stack : List (Int × Int)),
      FillInv w h orig sx sy c data stack →
      4 * matchCount w h data (getPixel w orig sx sy) + stack.length < fuel →
      ∃ out, floodLoopWith sched w h (getPixel w orig sx sy) c fuel data stack = some out ∧
        FillInv w h orig sx sy c out [] := by
  intro fuel
  induction fuel with
  | zero => intro data stack _ hlt; omega
  | succ fuel ih =>
    intro data stack hinv hlt
    cases stack with
    | nil => exact ⟨data, by simp [floodLoopWith], hinv⟩
    | cons top rest =>
      obtain ⟨x, y⟩ := top
      simp only [floodLoopWith]
      simp only [List.length_cons] at hlt
      by_cases hc : x < 0 ∨ x ≥ w ∨ y < 0 ∨ y ≥ h
      · rw [if_pos hc]
        have hout : ¬ inBounds w h x y := fun hb => (not_oob_iff w h x y).mpr hb hc
        exact ih data rest (hinv.discard_oob hin hout) (by omega)
      · rw [if_neg hc]
        have hxy : inBounds w h x y := (not_oob_iff w h x y).mp hc
        cases hm : «matches» data ((y * w + x) * 4) (getPixel w orig sx sy) with
        | false =>
          simp only [Bool.not_false, if_true]
          have hnm : getPixel w data x y ≠ getPixel w orig sx sy := by
            intro he
            rw [getPixel_eq_pixelAt, ← matches_iff, hm] at he
            exact absurd he (by simp)
          exact ih data rest (hinv.discard_nomatch hin hxy hnm) (by omega)
        | true =>
          simp only [Bool.not_true, Bool.false_eq_true, if_false]
          have he : getPixel w data x y = getPixel w orig sx sy := by
            rw [getPixel_eq_pixelAt, ← matches_iff]; exact hm
          have hcnt := matchCount_paint c hinv.len hxy hm hpt
          refine ih _ _ ((hinv.paint hpt hxy he).congr (mem_sched_iff hre x y rest)) ?_
          rw [length_sched hre]
          omega

theorem bitmap_ext {w h : Nat} {d1 d2 : List Nat} (h1 : d1.length = w * h * 4)
    (h2 : d2.length = w * h * 4)
    (hpix : ∀ x y, inBounds w h x y → getPixel w d1 x y = getPixel w d2 x y) : d1 = d2 := by
  apply List.ext_getElem (h1.trans h2.symm)
  intro i hi1 hi2
  have hi : i < w * h * 4 := by rw [← h1]; exact hi1
  have hp : i / 4 < w * h := by omega
  have hwpos : 0 < w := by
    rcases Nat.eq_zero_or_pos w with h0 | h0
    · rw [h0] at hp; simp at hp
    · exact h0
  have hx : (i / 4) % w < w := Nat.mod_lt _ hwpos
  have hy : (i / 4) / w < h := Nat.div_lt_of_lt_mul hp
  have hin : inBounds w h (((i / 4) % w : Nat) : Int) (((i / 4) / w : Nat) : Int) :=
    ⟨Int.ofNat_nonneg _, by exact_mod_cast hx, Int.ofNat_nonneg _, by exact_mod_cast hy⟩
  have hflat : ((((i / 4) / w : Nat) : Int) * (w : Int) + (((i / 4) % w : Nat) : Int)) * 4 =
      ((4 * (i / 4) : Nat) : Int) := by
    have e1 : (i / 4) / w * w + (i / 4) % w = i / 4 := by
      rw [Nat.mul_comm]; exact Nat.div_add_mod _ _
    have e2 : ((((i / 4) / w : Nat) : Int) * (w : Int) + (((i / 4) % w : Nat) : Int)) =
        ((i / 4 : Nat) : Int) := by
      exact_mod_cast e1
    rw [e2]; push_cast; ring
  have hpx := hpix _ _ hin
  rw [getPixel_eq_pixelAt, getPixel_eq_pixelAt, hflat, pixelAt_natCast, pixelAt_natCast] at hpx
  simp only [readByte_natCast, Color.mk.injEq] at hpx
  obtain ⟨q0, q1, q2, q3⟩ := hpx
  have hread : ∀ j : Nat, j < d1.length → j < d2.length →
      ((match d1[j]? with
        | some v => Val.num v
        | none => Val.undef) =
       (match d2[j]? with
        | some v => Val.num v
        | none => Val.undef)) → d1[j]? = d2[j]? := by
    intro j hj1 hj2 hq
    rw [List.getElem?_eq_getElem hj1, List.getElem?_eq_getElem hj2] at hq ⊢
    simp only [Val.num.injEq, Nat.cast_inj] at hq
    rw [hq]
  have hcase : i = 4 * (i / 4) ∨ i = 4 * (i / 4) + 1 ∨ i = 4 * (i / 4) + 2 ∨
      i = 4 * (i / 4) + 3 := by omega
  have hopt : d1[i]? = d2[i]? := by
    rcases hcase with e | e | e | e
    · rw [e]; exact hread _ (by omega) (by omega) q0
    · rw [e]; exact hread _ (by omega) (by omega) q1
    · rw [e]; exact hread _ (by omega) (by omega) q2
    · rw [e]; exact hread _ (by omega) (by omega) q3
  rw [List.getElem?_eq_getElem hi1, List.getElem?_eq_getElem hi2] at hopt
  exact Option.some.inj hopt

theorem FillInv.unique {w h : Nat} {orig : List Nat} {sx sy : Int} {c : Color}
    {out1 out2 : List Nat} (h1 : FillInv w h orig sx sy c out1 [])
    (h2 : FillInv w h orig sx sy c out2 []) : out1 = out2 := by
  apply bitmap_ext h1.len h2.len
  intro x y hxy
  by_cases hr : Region w h orig sx sy x y
  · rw [h1.region_painted hr, h2.region_painted hr]
  · rcases h1.frame x y hxy with e1 | ⟨hr1, _⟩
    · rcases h2.frame x y hxy with e2 | ⟨hr2, _⟩
      · rw [e1, e2]
      · exact absurd hr2 hr
    · exact absurd hr1 hr

theorem reorders_stackSched : Reorders stackSched := by
  intro x y rest
  exact List.Perm.append_right rest (List.reverse_perm _)

theorem reorders_queueSched : Reorders queueSched := by
  intro x y rest
  exact List.perm_append_comm

theorem reorders_stackSchedRev : Reorders stackSchedRev := by
  intro x y rest
  exact List.Perm.refl _

theorem floodFillWith_agrees {sched : Int → Int → List (Int × Int) → List (Int × Int)}
    (hre : Reorders sched) {w h : Nat} {data : List Nat} {c : Color} (sx sy : Int)
    (hlen : data.length = w * h * 4) (hwf : c.wellFormed) (fuel : Nat)
    (hfuel : fillFuel w h ≤ fuel) :
    ∃ out, floodFill fuel w h data c sx sy = some out ∧
      floodFillWith sched fuel w h data c sx sy = some out := by
  by_cases hin : inBounds w h sx sy
  · cases hb : colorsMatch (getPixel w data sx sy) c with
    | true => exact ⟨data, by simp [floodFill, hb], by simp [floodFillWith, hb]⟩
    | false =>
      have hpt := painted_ne_target hwf hb
      obtain ⟨out, hrun, hinv⟩ := floodFill_run hlen hin hwf hb fuel hfuel
      have hcnt := matchCount_le w h data (getPixel w data sx sy)
      obtain ⟨out2, hrun2, hinv2⟩ := floodLoopWith_spec hre hin hpt fuel data [(sx, sy)]
        (FillInv.init c hlen hin hpt)
        (by unfold fillFuel at hfuel; simp only [List.length_singleton]; omega)
      refine ⟨out, hrun, ?_⟩
      simp only [floodFillWith, hb, Bool.false_eq_true, if_false]
      rw [hrun2, hinv2.unique hinv]
  · have hc : sx < 0 ∨ sx ≥ w ∨ sy < 0 ∨ sy ≥ h := by
      by_contra hn
      exact hin ((not_oob_iff w h sx sy).mp hn)
    obtain ⟨k, rfl⟩ : ∃ k, fuel = k + 2 := ⟨fuel - 2, by unfold fillFuel at hfuel; omega⟩
    refine ⟨data, floodFill_oob data c hin (k + 2) (by omega), ?_⟩
    simp only [floodFillWith]
    split
    · rfl
    · simp [floodLoopWith, hc]

/-- C17: the result of `floodFill` does not depend on the traversal order. The loop of the
script is the stack instance of the loop with a schedule; for every `w`×`h` bitmap, every
integer seed and every well-formed fill colour, with `4 * w * h + 2` fuel the fill of the
script, the fill with a first-in-first-out queue and the fill with any schedule that only
reorders the work list (the four neighbours pushed in any order, on a stack or a queue)
return the same bitmap. -/
theorem floodFill_order_independent
    (sched : Int → Int → List (Int × Int) → List (Int × Int)) (w h : Nat) (data : List Nat)
    (fillColor : Color) (startX startY : Int) (fuel : Nat) (hre : Reorders sched)
    (hlen : data.length = w * h * 4) (hwf : fillColor.wellFormed)
    (hfuel : 4 * w * h + 2 ≤ fuel) :
    floodFillWith stackSched fuel w h data fillColor startX startY =
      floodFill fuel w h data fillColor startX startY ∧
    ∃ out, floodFill fuel w h data fillColor startX startY = some out ∧
      floodFillWith queueSched fuel w h data fillColor startX startY = some out ∧
      floodFillWith sched fuel w h data fillColor startX startY = some out := by
  have hfuel' : fillFuel w h ≤ fuel := by
    unfold fillFuel; rw [← Nat.mul_assoc]; exact hfuel
  refine ⟨floodFillWith_stack fuel w h data fillColor startX startY, ?_⟩
  obtain ⟨out, h1, h2⟩ :=
    floodFillWith_agrees reorders_queueSched startX startY hlen hwf fuel hfuel'
  obtain ⟨out', h1', h3⟩ := floodFillWith_agrees hre startX startY hlen hwf fuel hfuel'
  rw [h1] at h1'
  simp only [Option.some.injEq] at h1'
  subst h1'
  exact ⟨out, h1, h2, h3⟩

set_option maxRecDepth 100000 in
/-- Instance of C17 on the black-pixel scenario: the stack of the script, the queue and the
stack with the neighbours pushed in the opposite order all give the bitmap with 15 blue
pixels. -/
theorem floodFill_order_independent_witness :
    floodFillWith queueSched 66 4 4 whiteBlack4 blue 0 0 =
      some (paintPixel (uniform 16 0 0 255 255) 40
        ⟨Val.num 0, Val.num 0, Val.num 0, Val.num 255⟩) ∧
    floodFillWith stackSchedRev 66 4 4 whiteBlack4 blue 0 0 =
      some (paintPixel (uniform 16 0 0 255 255) 40
        ⟨Val.num 0, Val.num 0, Val.num 0, Val.num 255⟩) ∧
    (floodFillWith stackSched 66 4 4 whiteBlack4 blue 0 0 =
        floodFill 66 4 4 whiteBlack4 blue 0 0 ∧
      ∃ out, floodFill 66 4 4 whiteBlack4 blue 0 0 = some out ∧
        floodFillWith queueSched 66 4 4 whiteBlack4 blue 0 0 = some out ∧
        floodFillWith stackSchedRev 66 4 4 whiteBlack4 blue 0 0 = some out) :=
  ⟨by decide, by decide,
    floodFill_order_independent stackSchedRev 4 4 whiteBlack4 blue 0 0 66
      reorders_stackSchedRev (by decide)
      ⟨⟨0, rfl, by decide⟩, ⟨0, rfl, by decide⟩, ⟨255, rfl, by decide⟩⟩ (by decide)⟩

end Paint
